import Mathlib

/-! Index backfill coordination, snapshot tasks and admin CLI helpers.

A shallow embedding of the parts of the master / tools / CQL code that the
properties below talk about.  Definitions come first, theorems second.

Machine integers (`size_t`, `uint64_t`) are natural numbers reduced modulo
`2 ^ 64` wherever the C++ arithmetic could wrap.
-/

namespace yb

/-! ## Common value types -/

/-- Width of `size_t` / `uint64_t` on the supported platforms. -/
def kWordModulus : Nat := 2 ^ 64

/-- Transaction error codes attached to a `Status` (`yb/common/transaction_error.h`).
Only `kSnapshotTooOld` is named by the code embedded here; `kNone` is what
`TransactionError(status)` yields for a status without such a payload and every
remaining code is kept as `other tag`. -/
inductive TransactionErrorCode where
  | kNone
  | kSnapshotTooOld
  | other (tag : Nat)
  deriving DecidableEq, Repr

/-- Generic status codes of `yb::Status` used by the embedded functions. -/
inductive StatusCode where
  | kOk
  | kInvalidArgument
  | kNotFound
  | kIllegalState
  | kTimedOut
  | kRemoteError
  | kOther (tag : Nat)
  deriving DecidableEq, Repr

/-- Value of `yb::Status`: a code, a message and the transaction error payload
read back by `TransactionError(status)`. -/
structure Status where
  code : StatusCode
  message : String
  txn_error : TransactionErrorCode
  deriving DecidableEq, Repr

/-- The status returned by `Status::OK()`. -/
def Status.OK : Status := ⟨StatusCode.kOk, "", TransactionErrorCode.kNone⟩

/-- Member `Status::ok()`. -/
def Status.ok (s : Status) : Bool := s.code == StatusCode.kOk

/-- Function `TransactionError(status)`: the transaction error code carried by a status. -/
def TransactionError (s : Status) : TransactionErrorCode := s.txn_error

/-- Value of `yb::Result<T>`: either a value or a failing status. -/
inductive Result (α : Type) where
  | value (v : α)
  | error (s : Status)
  deriving DecidableEq, Repr

/-! ## `ent/src/yb/master/async_snapshot_tasks.cc` -/

namespace tserver

/-- Enum `TabletServerErrorPB::Code`.  The two codes `RetryAllowed` switches on
are named; all remaining codes of the protobuf enum are `other tag`. -/
inductive TabletServerErrorCode where
  | TABLET_NOT_FOUND
  | INVALID_SNAPSHOT
  | other (tag : Nat)
  deriving DecidableEq, Repr

/-- Enum `TabletSnapshotOpRequestPB::Operation`, as enumerated by the switch in
`AsyncTabletSnapshotOp::HandleResponse`. -/
inductive SnapshotOperation where
  | UNKNOWN
  | CREATE_ON_TABLET
  | RESTORE_ON_TABLET
  | DELETE_ON_TABLET
  | CREATE_ON_MASTER
  | DELETE_ON_MASTER
  | RESTORE_SYS_CATALOG
  | RESTORE_FINISHED
  deriving DecidableEq, Repr

end tserver

namespace master
namespace AsyncTabletSnapshotOp

open tserver

/-- Method `AsyncTabletSnapshotOp::RetryAllowed(code, status)`; `operation_` is the
member holding the snapshot operation kind of the task. -/
def RetryAllowed (operation_ : SnapshotOperation) (code : TabletServerErrorCode)
    (status : Status) : Bool :=
  match code with
  | TabletServerErrorCode.TABLET_NOT_FOUND => false
  | TabletServerErrorCode.INVALID_SNAPSHOT =>
      operation_ != SnapshotOperation.RESTORE_ON_TABLET
  | _ => TransactionError status != TransactionErrorCode.kSnapshotTooOld

end AsyncTabletSnapshotOp
end master

/-! ## `ent/src/yb/tools/yb-admin_cli_ent.cc` -/

namespace tools

/-- Macro `STATUS_FORMAT(InvalidArgument, ...)` as used by `GetOptionalArg`: the
`$0` and `$1` placeholders are replaced by the decimal renderings of the arguments. -/
def tooManyArgumentsStatus (expected found : Nat) : Status :=
  ⟨StatusCode.kInvalidArgument,
   "Too many arguments for command, at most " ++ toString expected ++
     " expected, but " ++ toString found ++ " found",
   TransactionErrorCode.kNone⟩

/-- Template `GetOptionalArg<T>(args, idx)`.  `Nil` stands for `T::Nil()` and
`FromString` for `T::FromString`; `idx + 1` is computed in `size_t`. -/
def GetOptionalArg {T : Type} (Nil : T) (FromString : String → Result T)
    (args : List String) (idx : Nat) : Result T :=
  if h : args.length ≤ idx then
    Result.value Nil
  else if args.length > (idx + 1) % kWordModulus then
    Result.error (tooManyArgumentsStatus ((idx + 1) % kWordModulus) args.length)
  else
    match FromString (args.get ⟨idx, Nat.lt_of_not_le h⟩) with
    | Result.value v => Result.value v
    | Result.error s => Result.error s

end tools

/-! ## `src/yb/yql/cql/ql/ptree/sem_context.cc` -/

namespace ql

/-- Enum `ErrorCode` of the QL layer, restricted to the codes raised by the embedded
functions. -/
inductive ErrorCode where
  | SYSTEM_NAMESPACE_READONLY
  | OBJECT_NOT_FOUND
  | UNAUTHORIZED
  | DUPLICATE_COLUMN
  deriving DecidableEq, Repr

/-- Enum `client::YBTableType`. -/
inductive YBTableType where
  | YQL_TABLE_TYPE
  | REDIS_TABLE_TYPE
  | PGSQL_TABLE_TYPE
  | TRANSACTION_STATUS_TABLE_TYPE
  | UNKNOWN_TABLE_TYPE
  deriving DecidableEq, Repr

/-- Value of `client::YBTableName` as far as `LookupTable` reads it. -/
structure YBTableName where
  namespace_name : String
  table_name : String
  is_system : Bool
  deriving DecidableEq, Repr

/-- Value of `client::YBColumnSchema` as far as `LoadSchema` reads it; `internal_type` is
the value of `YBColumnSchema::ToInternalDataType(type())`, a function that is not among the
embedded sources. -/
structure YBColumnSchema where
  name : String
  is_static : Bool
  is_counter : Bool
  type : Nat
  internal_type : Nat
  deriving DecidableEq, Repr

/-- Value of `client::YBSchema` as far as `LoadSchema` reads it. -/
structure YBSchema where
  columns : List YBColumnSchema
  column_ids : List Nat
  num_key_columns : Nat
  num_hash_key_columns : Nat
  use_mangled_column_name : Bool
  deriving DecidableEq, Repr

/-- Value of `client::YBTable` as far as `LookupTable` and `LoadSchema` read it. -/
structure YBTable where
  name : YBTableName
  IsIndex : Bool
  table_type : YBTableType
  schema : YBSchema
  deriving DecidableEq, Repr

/-- Value of `ColumnDesc` built by `LoadSchema` (`emplace_back` arguments, in order). -/
structure ColumnDesc where
  index : Nat
  id : Nat
  name : String
  is_hash : Bool
  is_primary : Bool
  is_static : Bool
  is_counter : Bool
  ql_type : Nat
  internal_type : Nat
  mangled : Bool
  deriving DecidableEq, Repr

/-- Status values produced by the QL semantic phase: `Status::OK()`, the result of
`Error(loc, code)` / `Error(loc, msg, code)`, or a plain invalid-argument status. -/
inductive QLStatus where
  | OK
  | Error (loc : Nat) (msg : String) (code : ErrorCode)
  | InvalidArgument (msg : String)
  deriving DecidableEq, Repr

/-- The mutable part of `SemContext` touched by `LookupTable`: the `column_desc_` slots of
the symbol table, the tables recorded by `AddAnalyzedTable`, and `cache_used_`. -/
structure SemContext where
  symtab_column_desc : List (String × ColumnDesc)
  analyzed_tables : List YBTableName
  cache_used_ : Bool
  deriving DecidableEq, Repr

/-- The collaborators and flags `LookupTable` consults: the three gflags and the two
`QLEnv` calls (`HasTablePermission`, `GetTableDesc` with its `cache_used` out-parameter). -/
structure QLEnv where
  FLAGS_use_cassandra_authentication : Bool
  FLAGS_yb_system_namespace_readonly : Bool
  FLAGS_allow_index_table_read_write : Bool
  HasTablePermission : String → String → Nat → Status
  GetTableDesc : YBTableName → Option YBTable × Bool

/-- Method `SemContext::MapSymbol(name, ColumnDesc*)`: `none` is the `LOG(FATAL)` abort on
an already occupied slot, otherwise the slot is filled and `Status::OK()` returned. -/
def MapSymbol (ctx : SemContext) (name : String) (entry : ColumnDesc) :
    Option (QLStatus × SemContext) :=
  if (ctx.symtab_column_desc.lookup name).isSome then
    none
  else
    some (QLStatus.OK, { ctx with symtab_column_desc := (name, entry) :: ctx.symtab_column_desc })

/-- Loop body of `SemContext::LoadSchema` for the columns from position `idx` on; `descs` is
the vector being filled.  After `emplace_back` the symbol registered under the column name
is `&(*col_descs)[idx]`, the element at position `idx` of the vector. -/
def LoadSchemaLoop (schema : YBSchema) :
    List YBColumnSchema → Nat → SemContext → List ColumnDesc →
      Option (QLStatus × SemContext × List ColumnDesc)
  | [], _, ctx, descs => some (QLStatus.OK, ctx, descs)
  | col :: rest, idx, ctx, descs =>
      let desc : ColumnDesc :=
        { index := idx
          id := schema.column_ids.getD idx 0
          name := col.name
          is_hash := decide (idx < schema.num_hash_key_columns)
          is_primary := decide (idx < schema.num_key_columns)
          is_static := col.is_static
          is_counter := col.is_counter
          ql_type := col.type
          internal_type := col.internal_type
          mangled := schema.use_mangled_column_name }
      match MapSymbol ctx col.name ((descs ++ [desc]).getD idx desc) with
      | none => none
      | some (QLStatus.OK, ctx1) => LoadSchemaLoop schema rest (idx + 1) ctx1 (descs ++ [desc])
      | some (st, ctx1) => some (st, ctx1, descs ++ [desc])

/-- Method `SemContext::LoadSchema(table, col_descs)`; `col_descs = none` is the null
pointer.  `none` as a result is the `LOG(FATAL)` abort inside `MapSymbol`. -/
def LoadSchema (ctx : SemContext) (table : YBTable) (col_descs : Option (List ColumnDesc)) :
    Option (QLStatus × SemContext × Option (List ColumnDesc)) :=
  match col_descs with
  | none => some (QLStatus.OK, ctx, none)
  | some descs =>
      match LoadSchemaLoop table.schema table.schema.columns 0 ctx descs with
      | none => none
      | some (st, ctx1, descs1) => some (st, ctx1, some descs1)

/-- Method `SemContext::CheckHasTablePermission(loc, permission, keyspace, table)`, with
`DFATAL_OR_RETURN_ERROR_IF` in its release-build reading (return the error). -/
def CheckHasTablePermission (env : QLEnv) (loc : Nat) (permission : Nat)
    (keyspace_name table_name : String) : QLStatus :=
  if keyspace_name.isEmpty then
    QLStatus.InvalidArgument ("Empty keyspace for table " ++ table_name)
  else if table_name.isEmpty then
    QLStatus.InvalidArgument "Table name cannot be empty"
  else
    let s := env.HasTablePermission keyspace_name table_name permission
    if !s.ok then QLStatus.Error loc s.message ErrorCode.UNAUTHORIZED else QLStatus.OK

/-- Method `SemContext::GetTableDesc(table_name)`: asks the environment and records the
analysed table and the cache use. -/
def GetTableDesc (env : QLEnv) (ctx : SemContext) (name : YBTableName) :
    Option YBTable × SemContext :=
  match env.GetTableDesc name with
  | (some table, cache_used) =>
      (some table,
       { ctx with
         analyzed_tables := name :: ctx.analyzed_tables
         cache_used_ := if cache_used then true else ctx.cache_used_ })
  | (none, _) => (none, ctx)

/-- What a call of `LookupTable` leaves behind: the returned status, the context, and the
out-parameters `*table`, `*is_system`, `*col_descs` (`is_system = none`: not yet written). -/
structure LookupResult where
  status : QLStatus
  ctx : SemContext
  table : Option YBTable
  is_system : Option Bool
  col_descs : Option (List ColumnDesc)
  deriving DecidableEq, Repr

/-- Method `SemContext::LookupTable`.  `table_in` is the incoming value of `*table`;
`none` as a result is the `LOG(FATAL)` abort inside `LoadSchema`. -/
def LookupTable (env : QLEnv) (ctx : SemContext) (name : YBTableName) (loc : Nat)
    (write_table : Bool) (permission : Nat) (table_in : Option YBTable)
    (col_descs : Option (List ColumnDesc)) : Option LookupResult :=
  let perm : QLStatus :=
    if env.FLAGS_use_cassandra_authentication then
      CheckHasTablePermission env loc permission name.namespace_name name.table_name
    else QLStatus.OK
  if perm ≠ QLStatus.OK then
    some ⟨perm, ctx, table_in, none, col_descs⟩
  else
    let is_system := name.is_system
    if is_system && write_table && env.FLAGS_yb_system_namespace_readonly then
      some ⟨QLStatus.Error loc "" ErrorCode.SYSTEM_NAMESPACE_READONLY, ctx, table_in,
            some is_system, col_descs⟩
    else
      match GetTableDesc env ctx name with
      | (none, ctx1) =>
          some ⟨QLStatus.Error loc "" ErrorCode.OBJECT_NOT_FOUND, ctx1, none,
                some is_system, col_descs⟩
      | (some table, ctx1) =>
          if (table.IsIndex && !env.FLAGS_allow_index_table_read_write) ||
              table.table_type != YBTableType.YQL_TABLE_TYPE then
            some ⟨QLStatus.Error loc "" ErrorCode.OBJECT_NOT_FOUND, ctx1, some table,
                  some is_system, col_descs⟩
          else
            match LoadSchema ctx1 table col_descs with
            | none => none
            | some (st, ctx2, descs) => some ⟨st, ctx2, some table, some is_system, descs⟩

end ql

/-! ## `src/yb/master/backfill_index.h`

The header declares the coordinator classes; the bodies of their out-of-line methods
live in a companion implementation file that is not among the sources embedded here.  The inline
members (`done()`, `timestamp_chosen()`, `read_time_for_backfill()`, the member
initialisers, the `GetSafeTimeForTablet` constructor) are embedded from the header; the
out-of-line methods are modelled from the specification and marked as such. -/

namespace master

/-- Identifier of a table (`TableId` is a string in the header). -/
abbrev TableId := String

/-- Identifier of a tablet. -/
abbrev TabletId := String

/-- Modelled from the spec: the class `HybridTime` is not in the header.  The glossary
describes it as a monotonically comparable logical clock value; it is kept as its 64-bit
unsigned representation, compared as a number. -/
abbrev HybridTime := Nat

/-- Modelled from the spec: the constant `HybridTime::kMin`, the least hybrid time, used by
the member initialiser of `read_time_for_backfill_`. -/
def HybridTime.kMin : HybridTime := 0

/-- Modelled from the spec: the class `MonoTime` is not in the header.  A point in
monotonic time is a signed 64-bit count of nanoseconds, so the representable points are
exactly the values of that range. -/
structure MonoTime where
  nanos : Int
  representable : -(2 : Int) ^ 63 ≤ nanos ∧ nanos ≤ (2 : Int) ^ 63 - 1

/-- Modelled from the spec: `MonoTime::Max()`, the greatest representable time. -/
def MonoTime.Max : MonoTime := ⟨(2 : Int) ^ 63 - 1, by norm_num, le_refl _⟩

/-- Modelled from the spec: a time `now` is past a deadline when it is strictly later. -/
def MonoTime.PastDeadline (deadline now : MonoTime) : Prop := deadline.nanos < now.nanos

instance (deadline now : MonoTime) : Decidable (MonoTime.PastDeadline deadline now) :=
  inferInstanceAs (Decidable (deadline.nanos < now.nanos))

/-- State of the base class `RetryingTSRpcTask` that the derived constructor touches: the
`deadline_` member, holding whatever the base-class constructor left there. -/
structure RetryingTSRpcTask where
  deadline_ : MonoTime

/-- Members of `GetSafeTimeForTablet`: the base-class state and the three members the
constructor initialises. -/
structure GetSafeTimeForTablet where
  base : RetryingTSRpcTask
  backfill_table_ : TableId
  tablet_ : TabletId
  min_cutoff_ : HybridTime

/-- Constructor `GetSafeTimeForTablet::GetSafeTimeForTablet(backfill_table, tablet,
min_cutoff)`: `base` is the state produced by the `RetryingTSRpcTask` constructor; the body
then overwrites `deadline_` with `MonoTime::Max()`. -/
def GetSafeTimeForTablet.construct (base : RetryingTSRpcTask) (backfill_table : TableId)
    (tablet : TabletId) (min_cutoff : HybridTime) : GetSafeTimeForTablet :=
  { base := { base with deadline_ := MonoTime.Max }
    backfill_table_ := backfill_table
    tablet_ := tablet
    min_cutoff_ := min_cutoff }

/-- Enum `BackfillJobPB_State`, the per-index outcome recorded by
`MarkIndexesAsDesired`. -/
inductive BackfillJobPB_State where
  | IN_PROGRESS
  | FAILED
  | SUCCESS
  deriving DecidableEq, Repr

/-- Members of `BackfillTable` that make up the operation state of one run.
`failed_indexes_` is the set of indexes already marked failed, each with its reason;
`index_states_` is what final aggregation committed, and `aggregations_` counts how often
final aggregation ran. -/
structure BackfillTable where
  done_ : Bool
  timestamp_chosen_ : Bool
  tablets_pending_ : Nat
  num_tablets_ : Nat
  read_time_for_backfill_ : HybridTime
  requested_index_ids_ : List TableId
  failed_indexes_ : List (TableId × String)
  index_states_ : List (TableId × BackfillJobPB_State × String)
  aggregations_ : Nat
  deriving DecidableEq, Repr

namespace BackfillTable

/-- Constructor `BackfillTable::BackfillTable` as far as the header fixes it: the member
initialisers `done_{false}`, `timestamp_chosen_{false}`,
`read_time_for_backfill_{HybridTime::kMin}`; `num_tablets` is the number of partitions of
the indexed table. -/
def construct (num_tablets : Nat) (indexes : List TableId) : BackfillTable :=
  { done_ := false
    timestamp_chosen_ := false
    tablets_pending_ := 0
    num_tablets_ := num_tablets
    read_time_for_backfill_ := HybridTime.kMin
    requested_index_ids_ := indexes
    failed_indexes_ := []
    index_states_ := []
    aggregations_ := 0 }

/-- Inline member `done()`. -/
def done (bt : BackfillTable) : Bool := bt.done_

/-- Inline member `timestamp_chosen()`. -/
def timestamp_chosen (bt : BackfillTable) : Bool := bt.timestamp_chosen_

/-- Inline member `read_time_for_backfill()`. -/
def read_time_for_backfill (bt : BackfillTable) : HybridTime := bt.read_time_for_backfill_

/-- Decrement of a `std::atomic<size_t>` counter: zero wraps to the largest value. -/
def decrement (n : Nat) : Nat := if n = 0 then kWordModulus - 1 else n - 1

/-- Modelled from the spec: `BackfillTable::Launch` / `LaunchComputeSafeTimeForRead`, whose
bodies are not in the header.  Section 4.2: launching issues one safe-time probe to
every partition, so every partition is pending. -/
def Launch (bt : BackfillTable) : BackfillTable :=
  { bt with tablets_pending_ := bt.num_tablets_ }

/-- Modelled from the spec: `BackfillTable::LaunchBackfill`, whose body is not in the
header.  Section 2: once the timestamp is chosen the coordinator fans out one partition
driver per partition, so every partition is pending again. -/
def LaunchBackfill (bt : BackfillTable) : BackfillTable :=
  { bt with tablets_pending_ := bt.num_tablets_ }

/-- Modelled from the spec: `BackfillTable::UpdateSafeTime(s, ht)` for a successful status
`s`; its body is not in the header.  Section 4.2: each response yields a candidate, the
chosen timestamp is the minimum over all candidates, it is chosen exactly when the last
outstanding probe completes, and (section 3) it is immutable afterwards.  Since the member
starts at `HybridTime::kMin`, the first candidate (the one arriving while every probe is
still outstanding) is taken as it is and later ones are folded in with `min`. -/
def UpdateSafeTime (bt : BackfillTable) (ht : HybridTime) : BackfillTable :=
  if bt.timestamp_chosen_ then bt
  else
    let read_time :=
      if bt.tablets_pending_ = bt.num_tablets_ then ht
      else min bt.read_time_for_backfill_ ht
    let pending := decrement bt.tablets_pending_
    let bt1 := { bt with read_time_for_backfill_ := read_time, tablets_pending_ := pending }
    if pending = 0 then LaunchBackfill { bt1 with timestamp_chosen_ := true } else bt1

/-- Modelled from the spec: `BackfillTable::MarkIndexesAsFailed(indexes, message)`, whose
body is not in the header.  Section 4.2: the reported indexes are united into the failed
set, each keeping the first error message observed for it. -/
def MarkIndexesAsFailed (bt : BackfillTable) (indexes : List TableId) (message : String) :
    BackfillTable :=
  { bt with
    failed_indexes_ :=
      indexes.foldl
        (fun acc id => if (acc.lookup id).isSome then acc else (id, message) :: acc)
        bt.failed_indexes_ }

/-- Modelled from the spec: final aggregation (`MarkIndexesAsDesired` and the commit of the
index states), whose body is not in the header.  Section 4.2: an index with no reported
failure is marked successful, an index with at least one reported failure is marked
failed with the first observed message; the run is done. -/
def FinalAggregation (bt : BackfillTable) : BackfillTable :=
  { bt with
    done_ := true
    index_states_ :=
      bt.requested_index_ids_.map
        (fun id =>
          match bt.failed_indexes_.lookup id with
          | some message => (id, BackfillJobPB_State.FAILED, message)
          | none => (id, BackfillJobPB_State.SUCCESS, ""))
    aggregations_ := bt.aggregations_ + 1 }

/-- Modelled from the spec: `BackfillTable::Done(s, failed_indexes)`, whose body is not in
the header.  Section 4.2: decrements the pending count, unites `failed_indexes` into the
failed set, and triggers final aggregation when the pending count reaches zero. -/
def Done (bt : BackfillTable) (s : Status) (failed_indexes : List TableId) : BackfillTable :=
  let bt1 := MarkIndexesAsFailed bt failed_indexes s.message
  let bt2 := { bt1 with tablets_pending_ := decrement bt1.tablets_pending_ }
  if bt2.tablets_pending_ = 0 then FinalAggregation bt2 else bt2

/-- One per-partition report delivered to `Done`. -/
structure Report where
  status : Status
  failed_indexes : List TableId
  deriving DecidableEq, Repr

/-- The coordinator after the given reports arrived, in the given order. -/
def afterReports (bt : BackfillTable) (reports : List Report) : BackfillTable :=
  reports.foldl (fun st r => Done st r.status r.failed_indexes) bt

/-- The coordinator after the given successful safe-time responses arrived, in order. -/
def afterSafeTimes (bt : BackfillTable) (responses : List HybridTime) : BackfillTable :=
  responses.foldl UpdateSafeTime bt

end BackfillTable

/-! ### Partition backfill driver -/

/-- A row key: the bytes of a `std::string`, compared lexicographically. -/
abbrev RowKey := List Nat

/-- Modelled from the spec: the per-partition backfill checkpoint of section 3.  The header
keeps it in the string member `backfilled_until_`; the spec distinguishes "not started"
(empty), a resume key, and a distinguished end marker, which are kept apart here. -/
inductive Checkpoint where
  | notStarted
  | resumeAt (key : RowKey)
  | complete
  deriving DecidableEq, Repr

/-- Modelled from the spec: the driver states of section 4.4. -/
inductive DriverState where
  | NotStarted
  | InProgress
  | Complete
  | Failed
  deriving DecidableEq, Repr

/-- Members of `BackfillTablet`: the checkpoint and the `done_` flag of the header, the
driver state of section 4.4, the start keys of the chunk tasks issued so far and the
reports made to the coordinator (both oldest first). -/
structure BackfillTablet where
  backfilled_until_ : Checkpoint
  done_ : Bool
  state_ : DriverState
  chunks_issued_ : List RowKey
  reported_ : List BackfillTable.Report
  deriving DecidableEq, Repr

namespace BackfillTablet

/-- Constructor `BackfillTablet::BackfillTablet`: `done_{false}` from the header, the
checkpoint as persisted for the tablet (`notStarted` for a fresh run). -/
def construct (persisted : Checkpoint) : BackfillTablet :=
  { backfilled_until_ := persisted
    done_ := false
    state_ := DriverState.NotStarted
    chunks_issued_ := []
    reported_ := [] }

/-- Inline member `done()`. -/
def done (t : BackfillTablet) : Bool := t.done_

/-- Modelled from the spec: `BackfillTablet::LaunchNextChunkOrDone` on launch, whose body is
not in the header.  Section 4.4: the driver becomes `InProgress` and issues the first
chunk task at the persisted checkpoint, or at the partition start (the empty key). -/
def Launch (t : BackfillTablet) : BackfillTablet :=
  match t.backfilled_until_ with
  | Checkpoint.complete => { t with done_ := true, state_ := DriverState.Complete }
  | Checkpoint.resumeAt key =>
      { t with state_ := DriverState.InProgress, chunks_issued_ := t.chunks_issued_ ++ [key] }
  | Checkpoint.notStarted =>
      { t with state_ := DriverState.InProgress, chunks_issued_ := t.chunks_issued_ ++ [[]] }

/-- Modelled from the spec: `BackfillTablet::UpdateBackfilledUntil(backfilled_until)`, whose
body is not in the header.  Section 4.4: the reported resume key is persisted as the new
checkpoint. -/
def UpdateBackfilledUntil (t : BackfillTablet) (backfilled_until : RowKey) : BackfillTablet :=
  { t with backfilled_until_ := Checkpoint.resumeAt backfilled_until }

/-- Modelled from the spec: `BackfillTablet::Done(status, backfilled_until, failed_indexes)`,
whose body is not in the header.  Section 4.4, on each chunk response: a reported resume
key is persisted as the new checkpoint and the next chunk task is issued there; a reported
completion makes the driver `Complete` and reports an empty failed set to the coordinator;
an unrecoverable error makes it `Failed` and reports the failed indexes. -/
def Done (t : BackfillTablet) (status : Status) (backfilled_until : Option RowKey)
    (failed_indexes : List TableId) : BackfillTablet :=
  if !status.ok then
    { t with
      done_ := true
      state_ := DriverState.Failed
      reported_ := t.reported_ ++ [⟨status, failed_indexes⟩] }
  else
    match backfilled_until with
    | some key =>
        let t1 := UpdateBackfilledUntil t key
        { t1 with chunks_issued_ := t1.chunks_issued_ ++ [key] }
    | none =>
        { t with
          backfilled_until_ := Checkpoint.complete
          done_ := true
          state_ := DriverState.Complete
          reported_ := t.reported_ ++ [⟨status, []⟩] }

end BackfillTablet

/-! ### Multi-stage alter controller -/

/-- Modelled from the spec: the permission stage of an index (the enum `IndexPermissions` is
not in the header): `DELETE_ONLY → WRITE_AND_DELETE → BACKFILL → PUBLIC`, plus the terminal
`FAILED`. -/
inductive IndexPermissions where
  | DELETE_ONLY
  | WRITE_AND_DELETE
  | BACKFILL
  | PUBLIC
  | FAILED
  deriving DecidableEq, Repr

/-- Position of a stage in the order `DELETE_ONLY, WRITE_AND_DELETE, BACKFILL, PUBLIC`. -/
def IndexPermissions.rank : IndexPermissions → Nat
  | IndexPermissions.DELETE_ONLY => 0
  | IndexPermissions.WRITE_AND_DELETE => 1
  | IndexPermissions.BACKFILL => 2
  | IndexPermissions.PUBLIC => 3
  | IndexPermissions.FAILED => 4

/-- Spec wording of stage monotonicity: a transition from `p` to `q` keeps the stage, or
leaves a non-terminal stage for a later stage of the order or for `FAILED`. -/
def IndexPermissions.Forward (p q : IndexPermissions) : Bool :=
  q == p ||
    (p != IndexPermissions.FAILED && (q == IndexPermissions.FAILED || decide (p.rank < q.rank)))

/-- An index descriptor of the indexed table: the index id and its permission stage. -/
structure IndexInfoPB where
  table_id : TableId
  index_permissions : IndexPermissions
  deriving DecidableEq, Repr

/-- The persisted `TableInfo` of the indexed table: schema version and index descriptors. -/
structure TableInfo where
  version : Nat
  indexes : List IndexInfoPB
  deriving DecidableEq, Repr

namespace MultiStageAlterTable

/-- The index descriptors after the permissions of `perm_mapping` have been written into
them, index by index (the write `UpdateIndexPermission` persists). -/
def appliedIndexes (info : TableInfo) (perm_mapping : List (TableId × IndexPermissions)) :
    List IndexInfoPB :=
  info.indexes.map
    (fun idx =>
      match perm_mapping.lookup idx.table_id with
      | some perm => { idx with index_permissions := perm }
      | none => idx)

/-- Modelled from the spec: `MultiStageAlterTable::UpdateIndexPermission(mgr, indexed_table,
perm_mapping, current_version)`, whose body is not in the header.  Header comment: updates
and persists the permission of each mapped index and returns whether any permission was
actually updated, in which case the version is incremented.  Sections 6 and 7: with a
`current_version` that differs from the persisted version the update is skipped. -/
def UpdateIndexPermission (indexed_table : TableInfo)
    (perm_mapping : List (TableId × IndexPermissions)) (current_version : Option Nat) :
    Bool × TableInfo :=
  if current_version.isSome && current_version != some indexed_table.version then
    (false, indexed_table)
  else
    let indexes := appliedIndexes indexed_table perm_mapping
    if indexes = indexed_table.indexes then (false, indexed_table)
    else (true, { version := indexed_table.version + 1, indexes := indexes })

/-- Modelled from the spec: the stage an index below `BACKFILL` is advanced to by one call
of the controller (header comment: `DELETE_ONLY -> WRITE_AND_DELETE -> BACKFILL`). -/
def NextPermission : IndexPermissions → Option IndexPermissions
  | IndexPermissions.DELETE_ONLY => some IndexPermissions.WRITE_AND_DELETE
  | IndexPermissions.WRITE_AND_DELETE => some IndexPermissions.BACKFILL
  | _ => none

/-- A launched backfill coordinator as the controller sees it: the schema version it was
launched at (`BackfillTable::schema_version_`) and the indexes it builds. -/
structure BackfillRun where
  schema_version_ : Nat
  requested_index_ids_ : List TableId
  deriving DecidableEq, Repr

/-- Modelled from the spec: `MultiStageAlterTable::LaunchNextTableInfoVersionIfNecessary(mgr,
info, current_version)`, whose body is not in the header.  Section 4.1: a call whose
expected version is not the persisted one is a no-op; otherwise every index below the
backfill stage advances by exactly one stage, the new stages are persisted, and a backfill
coordinator is launched for the indexes that thereby became eligible for backfill. -/
def LaunchNextTableInfoVersionIfNecessary (info : TableInfo) (current_version : Nat) :
    TableInfo × Option BackfillRun :=
  if info.version ≠ current_version then (info, none)
  else
    let perm_mapping := info.indexes.filterMap
      (fun idx => (NextPermission idx.index_permissions).map (fun perm => (idx.table_id, perm)))
    let updated := (UpdateIndexPermission info perm_mapping (some current_version)).2
    let eligible :=
      (perm_mapping.filter (fun e => e.2 == IndexPermissions.BACKFILL)).map (fun e => e.1)
    if eligible.isEmpty then (updated, none)
    else (updated, some ⟨updated.version, eligible⟩)

/-- Modelled from the spec: `BackfillTable::UpdateIndexPermissionsForIndexes`, the permission
commit at the end of a run, whose body is not in the header.  Section 4.1: indexes of the
run that failed are committed to `FAILED`, the others to `PUBLIC`; section 7: on a schema
version mismatch the commit is skipped. -/
def UpdateIndexPermissionsForIndexes (info : TableInfo) (run : BackfillRun)
    (failed_indexes : List TableId) : TableInfo :=
  (UpdateIndexPermission info
    (run.requested_index_ids_.map
      (fun id =>
        if failed_indexes.contains id then (id, IndexPermissions.FAILED)
        else (id, IndexPermissions.PUBLIC)))
    (some run.schema_version_)).2

/-- The controller together with the coordinators it has launched and not yet seen finish. -/
structure AlterState where
  info : TableInfo
  runs : List BackfillRun
  deriving DecidableEq, Repr

/-- What can happen to the indexed table: an alter round completes at some expected
version, or the `run`-th outstanding coordinator finishes reporting `failed_indexes`. -/
inductive AlterEvent where
  | alterRound (current_version : Nat)
  | backfillDone (run : Nat) (failed_indexes : List TableId)
  deriving DecidableEq, Repr

/-- One transition of the controller / coordinator pair. -/
def step (s : AlterState) : AlterEvent → AlterState
  | AlterEvent.alterRound current_version =>
      match LaunchNextTableInfoVersionIfNecessary s.info current_version with
      | (info, some run) => { info := info, runs := s.runs ++ [run] }
      | (info, none) => { info := info, runs := s.runs }
  | AlterEvent.backfillDone i failed_indexes =>
      match s.runs.get? i with
      | some run =>
          { info := UpdateIndexPermissionsForIndexes s.info run failed_indexes
            runs := s.runs.eraseIdx i }
      | none => s

/-- The state after a sequence of events, starting with no coordinator outstanding. -/
def runEvents (info : TableInfo) (events : List AlterEvent) : AlterState :=
  events.foldl step { info := info, runs := [] }

/-- What is known about every reachable controller state: index ids are pairwise distinct,
no outstanding coordinator was launched at a later version than the persisted one, and a
coordinator launched at the persisted version only builds indexes in the backfill stage. -/
def Consistent (s : AlterState) : Prop :=
  (s.info.indexes.map (fun idx => idx.table_id)).Nodup ∧
  ∀ run ∈ s.runs,
    run.schema_version_ ≤ s.info.version ∧
    (run.schema_version_ = s.info.version →
      ∀ idx ∈ s.info.indexes, idx.table_id ∈ run.requested_index_ids_ →
        idx.index_permissions = IndexPermissions.BACKFILL)

end MultiStageAlterTable

end master

/-! ### Snapshot task response handling (`async_snapshot_tasks.cc`) -/

namespace master

/-- Enum `MonitoredTaskState` of `yb/server/monitored_task.h`. -/
inductive MonitoredTaskState where
  | kWaiting
  | kRunning
  | kComplete
  | kFailed
  | kAborted
  | kScheduling
  deriving DecidableEq, Repr

/-- The calls `AsyncTabletSnapshotOp::HandleResponse` makes into `CatalogManager`. -/
inductive CatalogManagerCall where
  | HandleCreateTabletSnapshotResponse (tablet : TabletId) (error : Bool)
  | HandleRestoreTabletSnapshotResponse (tablet : TabletId) (error : Bool)
  | HandleDeleteTabletSnapshotResponse (snapshot_id : String) (tablet : TabletId) (error : Bool)
  deriving DecidableEq, Repr

/-- The response `resp_` as `HandleResponse` reads it: `has_error()`, `error().code()` and
`StatusFromPB(error().status())`. -/
structure TabletSnapshotOpResponse where
  has_error : Bool
  error_code : tserver.TabletServerErrorCode
  error_status : Status
  deriving DecidableEq, Repr

/-- Members of `AsyncTabletSnapshotOp` read or written by `HandleResponse`; `state_` is the
task state returned by `state()`. -/
structure AsyncTabletSnapshotOpTask where
  state_ : MonitoredTaskState
  operation_ : tserver.SnapshotOperation
  tablet_ : TabletId
  snapshot_id_ : String
  deriving DecidableEq, Repr

namespace AsyncTabletSnapshotOp

open tserver

/-- Method `AsyncTabletSnapshotOp::HandleResponse(attempt)`.  The base-class method
`TransitionToCompleteState` and the helper `TryFullyDecodeTxnSnapshotId` (true when the id
decodes to a non-nil transaction-aware snapshot id) are not among the embedded sources and
are parameters.  The result is the task afterwards and the `CatalogManager` calls made, in
order; `none` is the abort of `FATAL_INVALID_ENUM_VALUE`. -/
def HandleResponse (TransitionToCompleteState : MonitoredTaskState → MonitoredTaskState)
    (TryFullyDecodeTxnSnapshotId : String → Bool)
    (task : AsyncTabletSnapshotOpTask) (resp_ : TabletSnapshotOpResponse) :
    Option (AsyncTabletSnapshotOpTask × List CatalogManagerCall) :=
  let task1 : AsyncTabletSnapshotOpTask :=
    if resp_.has_error then
      if !RetryAllowed task.operation_ resp_.error_code resp_.error_status then
        { task with state_ := TransitionToCompleteState task.state_ }
      else task
    else { task with state_ := TransitionToCompleteState task.state_ }
  if task1.state_ ≠ MonitoredTaskState.kComplete then some (task1, [])
  else
    match task1.operation_ with
    | SnapshotOperation.CREATE_ON_TABLET =>
        some (task1,
          [CatalogManagerCall.HandleCreateTabletSnapshotResponse task1.tablet_ resp_.has_error])
    | SnapshotOperation.RESTORE_ON_TABLET =>
        some (task1,
          [CatalogManagerCall.HandleRestoreTabletSnapshotResponse task1.tablet_ resp_.has_error])
    | SnapshotOperation.DELETE_ON_TABLET =>
        if !TryFullyDecodeTxnSnapshotId task1.snapshot_id_ then
          some (task1,
            [CatalogManagerCall.HandleDeleteTabletSnapshotResponse task1.snapshot_id_
              task1.tablet_ resp_.has_error])
        else some (task1, [])
    | SnapshotOperation.RESTORE_FINISHED => some (task1, [])
    | _ => none

end AsyncTabletSnapshotOp

/-- Default-constructed `HybridTime` (`HybridTime timestamp;`): the invalid hybrid time, the
greatest 64-bit value.  The class is not among the embedded sources. -/
def HybridTime.kInvalid : HybridTime := kWordModulus - 1

end master

/-! ### Command handlers of `yb-admin_cli_ent.cc` -/

namespace tools

open master (HybridTime)

/-- Constant `ClusterAdminCli::kInvalidArguments`, declared in `yb-admin_cli.h` (not among
the embedded sources): the status a handler returns for a malformed command line. -/
def kInvalidArguments : Status :=
  ⟨StatusCode.kInvalidArgument, "Invalid arguments for operation", TransactionErrorCode.kNone⟩

/-- Constant `kMinus`. -/
def kMinus : String := "minus"

/-- Classification `std::isspace` in the classic locale, as used by `boost::trim`. -/
def isspace (c : Char) : Bool :=
  c == ' ' || (9 ≤ c.toNat && c.toNat ≤ 13)

/-- Character class `[0-9]` of the regular expression. -/
def isdigit (c : Char) : Bool := '0'.toNat ≤ c.toNat && c.toNat ≤ '9'.toNat

/-- Function `boost::trim(input)`: removes leading and trailing white space. -/
def trim (input : String) : String :=
  String.mk ((input.data.dropWhile isspace).reverse.dropWhile isspace).reverse

/-- The test `std::regex_match(input, int_regex)` with `int_regex = "[0-9]{16}"`: the whole
input is sixteen decimal digits. -/
def regex_match_int (input : String) : Bool :=
  input.data.length == 16 && input.data.all isdigit

/-- Value of a run of decimal digits, most significant first. -/
def decimalValue (digits : List Char) : Nat :=
  digits.foldl (fun acc c => 10 * acc + (c.toNat - '0'.toNat)) 0

/-- Function `std::stoul(input)` in base ten: skips leading white space, reads an optional
sign and the longest run of digits.  `none` stands for the exception thrown when there is
no digit (`std::invalid_argument`) or the value does not fit `unsigned long`
(`std::out_of_range`); a leading minus negates in `unsigned long`. -/
def stoul (input : String) : Option Nat :=
  let rest := input.data.dropWhile isspace
  let negative := rest.head? == some '-'
  let rest := if rest.head? == some '-' || rest.head? == some '+' then rest.drop 1 else rest
  let digits := rest.takeWhile isdigit
  if digits.isEmpty then none
  else
    let v := decimalValue digits
    if kWordModulus ≤ v then none
    else if negative then some (if v = 0 then 0 else kWordModulus - v)
    else some v

/-- The difference `now - delta` of a `uint64_t` and an `int64_t`: the usual arithmetic
conversions make it an unsigned 64-bit subtraction. -/
def MicrosMinus (now : Nat) (delta : Int) : Nat :=
  (((now : Int) - delta) % (2 : Int) ^ 64).toNat

/-- Conversion of an `int64_t` to the `uint64_t` parameter of `HybridTime::FromMicros`. -/
def MicrosOfInt64 (v : Int) : Nat := (v % (2 : Int) ^ 64).toNat

/-- The helpers `ParseHybridTime` calls that are not among the embedded sources:
`WallClock()->Now()` (its `time_point`, in microseconds), `DateTime::IntervalFromString`
(its `ToMicroseconds()`), `DateTime::TimestampFromString` with the human readable input
format (its `ToInt64()`), and `HybridTime::FromMicros`. -/
structure TimeEnv where
  WallClockNow : Result Nat
  IntervalFromString : String → Result Int
  TimestampFromString : String → Result Int
  FromMicros : Nat → HybridTime

/-- Function `ParseHybridTime(input)`.  `none` stands for an exception escaping from
`std::stoul`.  The two `VERIFY_RESULT` operands of the subtraction are evaluated left to
right. -/
def ParseHybridTime (env : TimeEnv) (input : String) : Option (Result HybridTime) :=
  let input := trim input
  if regex_match_int input then
    match stoul input with
    | some micros => some (Result.value (env.FromMicros micros))
    | none => none
  else if !input.data.isEmpty && input.data.head? == some '-' then
    match env.WallClockNow with
    | Result.error s => some (Result.error s)
    | Result.value now =>
        match env.IntervalFromString (String.mk (input.data.drop 1)) with
        | Result.error s => some (Result.error s)
        | Result.value delta => some (Result.value (env.FromMicros (MicrosMinus now delta)))
  else
    match env.TimestampFromString input with
    | Result.error s => some (Result.error s)
    | Result.value ts => some (Result.value (env.FromMicros (MicrosOfInt64 ts)))

/-- The calls the embedded handlers make on the admin client. -/
inductive ClientCall where
  | ListSnapshots (show_details show_restored show_deleted : Bool)
  | RestoreSnapshot (snapshot_id : String) (timestamp : HybridTime)
  | SetupUniverseReplication (producer_uuid : String)
      (producer_addresses table_uuids producer_bootstrap_ids : List String)
  | AlterUniverseReplication (producer_uuid : String)
      (master_addresses add_tables remove_tables : List String)
  | SetUniverseReplicationEnabled (producer_id : String) (is_enabled : Bool)
  deriving DecidableEq, Repr

/-- What running a handler amounts to: the status it returns and the client calls it made. -/
structure CommandResult where
  status : Status
  calls : List ClientCall
  deriving DecidableEq, Repr

/-- Method `Status::CloneAndPrepend(msg)`. -/
def CloneAndPrepend (s : Status) (msg : String) : Status :=
  { s with message := msg ++ ": " ++ s.message }

/-- Macro `RETURN_NOT_OK_PREPEND(client->call, msg); return Status::OK();` at the end of a
handler: `client` gives the status the admin client answers a call with. -/
def callClient (client : ClientCall → Status) (call : ClientCall) (msg : String) :
    CommandResult :=
  if (client call).ok then ⟨Status.OK, [call]⟩
  else ⟨CloneAndPrepend (client call) msg, [call]⟩

/-- Function `boost::split(result, input, boost::is_any_of(","))`: the pieces between
commas, empty pieces included. -/
def splitComma (input : String) : List String :=
  (input.data.splitOn ',').map String.mk

/-- Handler of `list_snapshots`: the loop over the flags.  `none` is the early return of
`kInvalidArguments` on an unknown flag; `ToUpperCase` is not among the embedded sources. -/
def list_snapshots_flags (ToUpperCase : String → String) :
    List String → Bool × Bool × Bool → Option (Bool × Bool × Bool)
  | [], flags => some flags
  | arg :: rest, (show_details, show_restored, show_deleted) =>
      let uppercase_flag := ToUpperCase arg
      if uppercase_flag = "SHOW_DETAILS" then
        list_snapshots_flags ToUpperCase rest (true, show_restored, show_deleted)
      else if uppercase_flag = "NOT_SHOW_RESTORED" then
        list_snapshots_flags ToUpperCase rest (show_details, false, show_deleted)
      else if uppercase_flag = "SHOW_DELETED" then
        list_snapshots_flags ToUpperCase rest (show_details, show_restored, true)
      else none

/-- Handler of `list_snapshots [SHOW_DETAILS] [NOT_SHOW_RESTORED] [SHOW_DELETED]`. -/
def list_snapshots (ToUpperCase : String → String) (client : ClientCall → Status)
    (args : List String) : CommandResult :=
  if args.length > 2 then ⟨kInvalidArguments, []⟩
  else
    match list_snapshots_flags ToUpperCase args (false, true, false) with
    | none => ⟨kInvalidArguments, []⟩
    | some (show_details, show_restored, show_deleted) =>
        callClient client (ClientCall.ListSnapshots show_details show_restored show_deleted)
          "Unable to list snapshots"

/-- Handler of `restore_snapshot <snapshot_id> [{<timestamp> | minus {interval}]`.  `none`
is an exception escaping from `ParseHybridTime`. -/
def restore_snapshot (env : TimeEnv) (client : ClientCall → Status) (args : List String) :
    Option CommandResult :=
  if args.length < 1 || 3 < args.length then some ⟨kInvalidArguments, []⟩
  else if args.length == 3 && args.getD 1 "" != kMinus then some ⟨kInvalidArguments, []⟩
  else
    let snapshot_id := args.getD 0 ""
    let parsed : Option (Result HybridTime) :=
      if args.length == 2 then ParseHybridTime env (args.getD 1 "")
      else if args.length == 3 then ParseHybridTime env ("-" ++ args.getD 2 "")
      else some (Result.value HybridTime.kInvalid)
    match parsed with
    | none => none
    | some (Result.error s) => some ⟨s, []⟩
    | some (Result.value timestamp) =>
        some (callClient client (ClientCall.RestoreSnapshot snapshot_id timestamp)
          ("Unable to restore snapshot " ++ snapshot_id))

/-- Handler of `alter_universe_replication <producer_universe_uuid> {set_master_addresses
... | add_table ... | remove_table ...}`. -/
def alter_universe_replication (client : ClientCall → Status) (args : List String) :
    CommandResult :=
  if args.length != 3 then ⟨kInvalidArguments, []⟩
  else
    let producer_uuid := args.getD 0 ""
    let newElem := splitComma (args.getD 2 "")
    let msg := "Unable to alter replication for universe " ++ producer_uuid
    if args.getD 1 "" = "set_master_addresses" then
      callClient client (ClientCall.AlterUniverseReplication producer_uuid newElem [] []) msg
    else if args.getD 1 "" = "add_table" then
      callClient client (ClientCall.AlterUniverseReplication producer_uuid [] newElem []) msg
    else if args.getD 1 "" = "remove_table" then
      callClient client (ClientCall.AlterUniverseReplication producer_uuid [] [] newElem) msg
    else ⟨kInvalidArguments, []⟩

/-- Handler of `set_universe_replication_enabled <producer_universe_uuid> <0|1>`;
`CheckedStoi` is not among the embedded sources. -/
def set_universe_replication_enabled (CheckedStoi : String → Result Int)
    (client : ClientCall → Status) (args : List String) : CommandResult :=
  if args.length < 2 then ⟨kInvalidArguments, []⟩
  else
    let producer_id := args.getD 0 ""
    match CheckedStoi (args.getD 1 "") with
    | Result.error s => ⟨s, []⟩
    | Result.value v =>
        let is_enabled := v != 0
        callClient client (ClientCall.SetUniverseReplicationEnabled producer_id is_enabled)
          ("Unable to " ++ (if is_enabled then "enable" else "disable") ++
            " replication for universe " ++ producer_id)

end tools

/-! # Theorems -/

namespace master
namespace AsyncTabletSnapshotOp

open tserver

/-- C4: a tablet-does-not-exist error is never retried.  For every snapshot operation
kind and every status, `RetryAllowed` is false when the tablet-server error code is
`TABLET_NOT_FOUND`. -/
theorem retryAllowed_tablet_not_found (operation_ : SnapshotOperation) (status : Status) :
    RetryAllowed operation_ TabletServerErrorCode.TABLET_NOT_FOUND status = false := by
  rfl

/-- C5, as stated, fails: with error code `INVALID_SNAPSHOT` and a create operation the
status is not consulted, so a status carrying `kSnapshotTooOld` is still retried. -/
theorem retryAllowed_snapshot_too_old_counterexample :
    TransactionError ⟨StatusCode.kRemoteError, "snapshot too old",
        TransactionErrorCode.kSnapshotTooOld⟩ = TransactionErrorCode.kSnapshotTooOld ∧
    RetryAllowed SnapshotOperation.CREATE_ON_TABLET TabletServerErrorCode.INVALID_SNAPSHOT
      ⟨StatusCode.kRemoteError, "snapshot too old",
        TransactionErrorCode.kSnapshotTooOld⟩ = true := by
  constructor <;> rfl

/-- C5 (amended): when the status carries `kSnapshotTooOld`, `RetryAllowed` is false for
every operation kind and every tablet-server error code other than `INVALID_SNAPSHOT`;
for `INVALID_SNAPSHOT` the answer depends on the operation alone and is false exactly
for `RESTORE_ON_TABLET`. -/
theorem retryAllowed_snapshot_too_old (operation_ : SnapshotOperation)
    (code : TabletServerErrorCode) (status : Status)
    (hts : TransactionError status = TransactionErrorCode.kSnapshotTooOld) :
    (code ≠ TabletServerErrorCode.INVALID_SNAPSHOT →
        RetryAllowed operation_ code status = false) ∧
    (RetryAllowed operation_ TabletServerErrorCode.INVALID_SNAPSHOT status = false ↔
        operation_ = SnapshotOperation.RESTORE_ON_TABLET) := by
  constructor
  · intro hcode
    cases code with
    | TABLET_NOT_FOUND => rfl
    | INVALID_SNAPSHOT => exact absurd rfl hcode
    | other tag => simp [RetryAllowed, hts]
  · cases operation_ <;> simp [RetryAllowed]

/-- Witness for `retryAllowed_snapshot_too_old` at a timed-out restore task. -/
theorem retryAllowed_snapshot_too_old_witness :
    RetryAllowed SnapshotOperation.RESTORE_ON_TABLET (TabletServerErrorCode.other 1)
      ⟨StatusCode.kTimedOut, "", TransactionErrorCode.kSnapshotTooOld⟩ = false :=
  (retryAllowed_snapshot_too_old SnapshotOperation.RESTORE_ON_TABLET
    (TabletServerErrorCode.other 1)
    ⟨StatusCode.kTimedOut, "", TransactionErrorCode.kSnapshotTooOld⟩ rfl).1 (by decide)

end AsyncTabletSnapshotOp
end master

namespace tools

/-- Function `GetOptionalArg` passes the outcome of `FromString` through unchanged once it gets
to the parsing branch. -/
lemma verify_result_id {T : Type} (r : Result T) :
    (match r with
      | Result.value v => Result.value v
      | Result.error s => Result.error s) = r := by
  cases r <;> rfl

/-- C10: for an argument list `args` and a `size_t` index `idx`, `GetOptionalArg` returns
`T::Nil()` when `args.size() <= idx`, the too-many-arguments `InvalidArgument` status
(at most `idx + 1` expected) when `args.size() > idx + 1`, and the result of
`T::FromString(args[idx])` when `args.size() == idx + 1`; `FromString` has no influence
on the result unless `args.size() == idx + 1`. -/
theorem getOptionalArg_cases {T : Type} (Nil : T) (FromString : String → Result T)
    (args : List String) (idx : Nat)
    (hidx : idx < kWordModulus) (hlen : args.length < kWordModulus) :
    (args.length ≤ idx → GetOptionalArg Nil FromString args idx = Result.value Nil) ∧
    (args.length > idx + 1 →
      GetOptionalArg Nil FromString args idx =
        Result.error (tooManyArgumentsStatus (idx + 1) args.length) ∧
      (tooManyArgumentsStatus (idx + 1) args.length).code = StatusCode.kInvalidArgument) ∧
    (∀ h : args.length = idx + 1,
      GetOptionalArg Nil FromString args idx =
        FromString (args.get ⟨idx, by omega⟩)) ∧
    (args.length ≠ idx + 1 → ∀ G : String → Result T,
      GetOptionalArg Nil FromString args idx = GetOptionalArg Nil G args idx) := by
  have hmod : idx + 1 < kWordModulus → (idx + 1) % kWordModulus = idx + 1 :=
    fun h => Nat.mod_eq_of_lt h
  refine ⟨?_, ?_, ?_, ?_⟩
  · intro h
    simp [GetOptionalArg, h]
  · intro h
    have h1 : ¬ args.length ≤ idx := by omega
    have h2 : idx + 1 < kWordModulus := by omega
    refine ⟨?_, rfl⟩
    simp only [GetOptionalArg, h1, hmod h2]
    simp [h]
  · intro h
    have h1 : ¬ args.length ≤ idx := by omega
    have h2 : idx + 1 < kWordModulus := by omega
    have h3 : ¬ args.length > idx + 1 := by omega
    simp only [GetOptionalArg, h1, hmod h2]
    simp only [h3, dite_false, ite_false]
    exact verify_result_id _
  · intro h G
    by_cases h1 : args.length ≤ idx
    · simp [GetOptionalArg, h1]
    · have h2 : idx + 1 < kWordModulus := by omega
      have h3 : args.length > idx + 1 := by omega
      simp only [GetOptionalArg, h1, hmod h2]
      simp [h3]

/-- Witness for `getOptionalArg_cases`: one argument, index zero, decimal parsing. -/
theorem getOptionalArg_cases_witness :
    GetOptionalArg (0 : Nat) (fun s => Result.value s.length) ["abc"] 0 =
      (fun s => Result.value s.length) (["abc"].get ⟨0, by decide⟩) :=
  (getOptionalArg_cases (0 : Nat) (fun s => Result.value s.length) ["abc"] 0
    (by decide) (by decide)).2.2.1 rfl

end tools

namespace ql

/-- The loop of `LoadSchema` can only end with `Status::OK()`: `MapSymbol` for column
descriptors either aborts or succeeds. -/
lemma loadSchemaLoop_status (schema : YBSchema) (cols : List YBColumnSchema) :
    ∀ (idx : Nat) (ctx : SemContext) (descs : List ColumnDesc)
      (r : QLStatus × SemContext × List ColumnDesc),
      LoadSchemaLoop schema cols idx ctx descs = some r → r.1 = QLStatus.OK := by
  induction cols with
  | nil =>
      intro idx ctx descs r h
      simp only [LoadSchemaLoop, Option.some.injEq] at h
      rw [← h]
  | cons col rest ih =>
      intro idx ctx descs r h
      unfold LoadSchemaLoop at h
      simp only [MapSymbol] at h
      split at h
      · exact absurd h (by simp)
      · rename_i ctx1 heq
        exact ih _ _ _ _ h
      · rename_i st ctx1 hne heq
        split at heq
        · exact absurd heq (by simp)
        · simp only [Option.some.injEq, Prod.mk.injEq] at heq
          exact absurd heq.1.symm hne

/-- Whenever `LoadSchema` returns, it returns `Status::OK()`. -/
lemma loadSchema_status (ctx : SemContext) (table : YBTable)
    (col_descs : Option (List ColumnDesc))
    (r : QLStatus × SemContext × Option (List ColumnDesc))
    (h : LoadSchema ctx table col_descs = some r) : r.1 = QLStatus.OK := by
  unfold LoadSchema at h
  cases col_descs with
  | none =>
      simp only [Option.some.injEq] at h
      rw [← h]
  | some descs =>
      simp only at h
      split at h
      · exact absurd h (by simp)
      · rename_i st ctx1 descs1 heq
        simp only [Option.some.injEq] at h
        rw [← h]
        exact loadSchemaLoop_status _ _ _ _ _ _ heq

/-- C9: provided the permission check passes and the system-namespace-readonly check does
not trigger, `LookupTable` fails with `OBJECT_NOT_FOUND` if and only if the table
descriptor is missing, or the table is an index while `allow_index_table_read_write` is
false, or the table type is not `YQL_TABLE_TYPE`; otherwise it returns the result of
`LoadSchema` on the table found. -/
theorem lookupTable_object_not_found (env : QLEnv) (ctx : SemContext) (name : YBTableName)
    (loc : Nat) (write_table : Bool) (permission : Nat) (table_in : Option YBTable)
    (col_descs : Option (List ColumnDesc))
    (hperm : env.FLAGS_use_cassandra_authentication = true →
      CheckHasTablePermission env loc permission name.namespace_name name.table_name =
        QLStatus.OK)
    (hro : (name.is_system && write_table && env.FLAGS_yb_system_namespace_readonly) = false) :
    ((∃ r l m, LookupTable env ctx name loc write_table permission table_in col_descs = some r ∧
        r.status = QLStatus.Error l m ErrorCode.OBJECT_NOT_FOUND) ↔
      ((env.GetTableDesc name).1 = none ∨
        ∃ t, (env.GetTableDesc name).1 = some t ∧
          ((t.IsIndex = true ∧ env.FLAGS_allow_index_table_read_write = false) ∨
            t.table_type ≠ YBTableType.YQL_TABLE_TYPE))) ∧
    (¬ ((env.GetTableDesc name).1 = none ∨
        ∃ t, (env.GetTableDesc name).1 = some t ∧
          ((t.IsIndex = true ∧ env.FLAGS_allow_index_table_read_write = false) ∨
            t.table_type ≠ YBTableType.YQL_TABLE_TYPE)) →
      ∃ t, (env.GetTableDesc name).1 = some t ∧
        LookupTable env ctx name loc write_table permission table_in col_descs =
          (LoadSchema (GetTableDesc env ctx name).2 t col_descs).map
            (fun r => ⟨r.1, r.2.1, some t, some name.is_system, r.2.2⟩)) := by
  have hp : (if env.FLAGS_use_cassandra_authentication then
      CheckHasTablePermission env loc permission name.namespace_name name.table_name
      else QLStatus.OK) = QLStatus.OK := by
    by_cases hf : env.FLAGS_use_cassandra_authentication = true
    · simp [hf, hperm hf]
    · simp [hf]
  rcases hdesc : env.GetTableDesc name with ⟨tbl, cache_used⟩
  cases tbl with
  | none =>
      have hL : LookupTable env ctx name loc write_table permission table_in col_descs =
          some ⟨QLStatus.Error loc "" ErrorCode.OBJECT_NOT_FOUND, ctx, none,
                some name.is_system, col_descs⟩ := by
        simp only [LookupTable, hp, hro, GetTableDesc, hdesc]
        simp
      refine ⟨⟨fun _ => Or.inl rfl, fun _ => ⟨_, loc, "", hL, rfl⟩⟩, ?_⟩
      intro hn
      exact absurd (Or.inl rfl) hn
  | some t =>
      by_cases hhid : ((t.IsIndex && !env.FLAGS_allow_index_table_read_write) ||
          t.table_type != YBTableType.YQL_TABLE_TYPE) = true
      · have hL : LookupTable env ctx name loc write_table permission table_in col_descs =
            some ⟨QLStatus.Error loc "" ErrorCode.OBJECT_NOT_FOUND,
                  (GetTableDesc env ctx name).2, some t, some name.is_system, col_descs⟩ := by
          simp only [LookupTable, hp, hro, GetTableDesc, hdesc]
          simp [hhid]
        have hc : (t.IsIndex = true ∧ env.FLAGS_allow_index_table_read_write = false) ∨
            t.table_type ≠ YBTableType.YQL_TABLE_TYPE := by
          simpa using hhid
        refine ⟨⟨fun _ => Or.inr ⟨t, rfl, hc⟩, fun _ => ⟨_, loc, "", hL, rfl⟩⟩, ?_⟩
        intro hn
        exact absurd (Or.inr ⟨t, rfl, hc⟩) hn
      · have hL : LookupTable env ctx name loc write_table permission table_in col_descs =
            (LoadSchema (GetTableDesc env ctx name).2 t col_descs).map
              (fun r => ⟨r.1, r.2.1, some t, some name.is_system, r.2.2⟩) := by
          simp only [LookupTable, hp, hro, GetTableDesc, hdesc]
          simp only [ne_eq, not_true_eq_false, ite_false, hhid, Bool.false_eq_true]
          cases LoadSchema
            { symtab_column_desc := ctx.symtab_column_desc
              analyzed_tables := name :: ctx.analyzed_tables
              cache_used_ := if cache_used = true then true else ctx.cache_used_ } t col_descs <;> rfl
        have hc : ¬ ((t.IsIndex = true ∧ env.FLAGS_allow_index_table_read_write = false) ∨
            t.table_type ≠ YBTableType.YQL_TABLE_TYPE) := by
          simpa using hhid
        refine ⟨⟨?_, ?_⟩, fun _ => ⟨t, rfl, hL⟩⟩
        · rintro ⟨r, l, m, hr, hst⟩
          rw [hL] at hr
          rcases hls : LoadSchema (GetTableDesc env ctx name).2 t col_descs with _ | r0
          · rw [hls] at hr
            exact absurd hr (by simp)
          · rw [hls] at hr
            simp only [Option.map_some', Option.some.injEq] at hr
            have hok := loadSchema_status _ _ _ _ hls
            rw [← hr] at hst
            simp only at hst
            rw [hok] at hst
            exact absurd hst (by simp)
        · rintro (h | ⟨t1, h1, h2⟩)
          · exact absurd h (by simp)
          · simp only [Option.some.injEq] at h1
            subst h1
            exact absurd h2 hc

/-- Witness for `lookupTable_object_not_found`: authentication off, an index table, the flag
at its default `false`: the lookup fails with `OBJECT_NOT_FOUND`. -/
theorem lookupTable_object_not_found_witness :
    ∃ r l m,
      LookupTable ⟨false, true, false, fun _ _ _ => Status.OK,
          fun n => (some ⟨n, true, YBTableType.YQL_TABLE_TYPE, ⟨[], [], 0, 0, false⟩⟩, false)⟩
        ⟨[], [], false⟩ ⟨"ks", "idx", false⟩ 0 false 0 none none = some r ∧
      r.status = QLStatus.Error l m ErrorCode.OBJECT_NOT_FOUND :=
  (lookupTable_object_not_found
    ⟨false, true, false, fun _ _ _ => Status.OK,
      fun n => (some ⟨n, true, YBTableType.YQL_TABLE_TYPE, ⟨[], [], 0, 0, false⟩⟩, false)⟩
    ⟨[], [], false⟩ ⟨"ks", "idx", false⟩ 0 false 0 none none
    (by intro h; exact absurd h (by decide)) rfl).1.2
    (Or.inr ⟨_, rfl, Or.inl ⟨rfl, rfl⟩⟩)

end ql

namespace master

/-- C6: the safe-time probe has no deadline.  For every base-task state, backfill table,
tablet and `min_cutoff`, the constructed `GetSafeTimeForTablet` task has `deadline_` equal
to `MonoTime::Max()`, which no representable time exceeds: no point in time is past it. -/
theorem getSafeTimeForTablet_deadline_max (base : RetryingTSRpcTask)
    (backfill_table : TableId) (tablet : TabletId) (min_cutoff : HybridTime) :
    (GetSafeTimeForTablet.construct base backfill_table tablet min_cutoff).base.deadline_ =
      MonoTime.Max ∧
    (∀ now : MonoTime, now.nanos ≤ MonoTime.Max.nanos) ∧
    (∀ now : MonoTime,
      ¬ MonoTime.PastDeadline
          (GetSafeTimeForTablet.construct base backfill_table tablet min_cutoff).base.deadline_
          now) := by
  refine ⟨rfl, fun now => now.representable.2, ?_⟩
  intro now h
  have h1 : now.nanos ≤ (2 : Int) ^ 63 - 1 := now.representable.2
  have h2 : (2 : Int) ^ 63 - 1 < now.nanos := h
  exact absurd h1 (not_le.mpr h2)

end master

namespace master
namespace BackfillTable

/-- Decrementing a positive `size_t` counter does not wrap. -/
lemma decrement_of_pos (p : Nat) (h0 : 0 < p) :
    decrement p = p - 1 := by
  unfold decrement
  rw [if_neg (by omega)]

/-- Invariant of the safe-time phase: after `k ≤ n` successful responses the coordinator
has `n - k` probes outstanding, the flag is set exactly at `k = n`, and the stored read
time is the least response seen so far. -/
lemma afterSafeTimes_invariant (n : Nat) (indexes : List TableId)
    (ts : List HybridTime) :
    ts.length ≤ n →
      (afterSafeTimes (Launch (construct n indexes)) ts).num_tablets_ = n ∧
      (ts.length < n →
        (afterSafeTimes (Launch (construct n indexes)) ts).timestamp_chosen_ = false ∧
        (afterSafeTimes (Launch (construct n indexes)) ts).tablets_pending_ = n - ts.length) ∧
      (ts.length = n → 0 < n →
        (afterSafeTimes (Launch (construct n indexes)) ts).timestamp_chosen_ = true) ∧
      (ts ≠ [] →
        (afterSafeTimes (Launch (construct n indexes)) ts).read_time_for_backfill_ ∈ ts ∧
        ∀ t ∈ ts, (afterSafeTimes (Launch (construct n indexes)) ts).read_time_for_backfill_ ≤ t) := by
  induction ts using List.reverseRecOn with
  | nil =>
      intro _
      refine ⟨rfl, fun _ => ⟨rfl, rfl⟩, ?_, fun h => absurd rfl h⟩
      intro h0 hpos
      simp at h0
      omega
  | append_singleton ts t ih =>
      intro hlen
      simp only [List.length_append, List.length_singleton] at hlen
      obtain ⟨hnum, hlt, -, hmin⟩ := ih (by omega)
      obtain ⟨hch, hpend⟩ := hlt (by omega)
      have hstep : afterSafeTimes (Launch (construct n indexes)) (ts ++ [t]) =
          UpdateSafeTime (afterSafeTimes (Launch (construct n indexes)) ts) t := by
        simp [afterSafeTimes, List.foldl_append]
      generalize afterSafeTimes (Launch (construct n indexes)) ts = st at hnum hch hpend hmin hstep
      have hdec : decrement st.tablets_pending_ = n - ts.length - 1 := by
        rw [hpend]
        exact decrement_of_pos _ (by omega)
      have hfirst : st.tablets_pending_ = st.num_tablets_ ↔ ts = [] := by
        rw [hpend, hnum]
        constructor
        · intro h
          exact List.length_eq_zero.mp (by omega)
        · intro h
          simp [h]
      rw [hstep]
      simp only [List.length_append, List.length_singleton]
      have hread : (UpdateSafeTime st t).read_time_for_backfill_ =
          if ts = [] then t else min st.read_time_for_backfill_ t := by
        unfold UpdateSafeTime
        simp only [hch, Bool.false_eq_true, ite_false, hdec, hfirst]
        by_cases h : n - ts.length - 1 = 0
        · simp only [h, if_true, LaunchBackfill]
        · simp only [h, if_false]
      refine ⟨?_, ?_, ?_, ?_⟩
      · unfold UpdateSafeTime
        simp only [hch, Bool.false_eq_true, ite_false, hdec]
        by_cases h : n - ts.length - 1 = 0
        · simp only [h, if_true, LaunchBackfill, hnum]
        · simp only [h, if_false, hnum]
      · intro hlt2
        have hne : ¬ (n - ts.length - 1 = 0) := by omega
        unfold UpdateSafeTime
        simp only [hch, Bool.false_eq_true, ite_false, hdec, hne]
        exact ⟨trivial, by omega⟩
      · intro heq _
        have he : n - ts.length - 1 = 0 := by omega
        unfold UpdateSafeTime
        simp only [hch, Bool.false_eq_true, ite_false, hdec, he, if_true, LaunchBackfill]
      · intro _
        rw [hread]
        by_cases hts : ts = []
        · subst hts
          simp
        · obtain ⟨hmem, hle⟩ := hmin hts
          simp only [hts, ite_false]
          constructor
          · rcases Nat.le_total st.read_time_for_backfill_ t with h | h
            · rw [Nat.min_eq_left h]
              exact List.mem_append_left _ hmem
            · rw [Nat.min_eq_right h]
              simp
          · intro u hu
            rcases List.mem_append.mp hu with h | h
            · exact le_trans (Nat.min_le_left _ _) (hle u h)
            · simp only [List.mem_singleton] at h
              subst h
              exact Nat.min_le_right _ _

/-- C1: for every non-empty list of successful per-partition safe-time responses delivered
to `UpdateSafeTime`, starting from the constructed and launched coordinator over as many
partitions as there are responses, `timestamp_chosen()` is true after the last response,
`read_time_for_backfill()` then is the minimum of the responses (one of them, and below or
equal to each), and `timestamp_chosen()` is false after every proper prefix. -/
theorem updateSafeTime_chooses_minimum (indexes : List TableId) (ts : List HybridTime)
    (hne : ts ≠ []) :
    (afterSafeTimes (Launch (construct ts.length indexes)) ts).timestamp_chosen = true ∧
    (afterSafeTimes (Launch (construct ts.length indexes)) ts).read_time_for_backfill ∈ ts ∧
    (∀ t ∈ ts,
      (afterSafeTimes (Launch (construct ts.length indexes)) ts).read_time_for_backfill ≤ t) ∧
    (∀ k, k < ts.length →
      (afterSafeTimes (Launch (construct ts.length indexes)) (ts.take k)).timestamp_chosen
        = false) := by
  have hpos : 0 < ts.length := List.length_pos.mpr hne
  obtain ⟨-, -, hch, hmin⟩ := afterSafeTimes_invariant ts.length indexes ts le_rfl
  refine ⟨hch rfl hpos, (hmin hne).1, (hmin hne).2, ?_⟩
  intro k hk
  have hlk : (ts.take k).length = k := by
    rw [List.length_take]
    omega
  obtain ⟨-, hlt, -, -⟩ :=
    afterSafeTimes_invariant ts.length indexes (ts.take k) (by omega)
  exact (hlt (by omega)).1

/-- Witness for `updateSafeTime_chooses_minimum`: three partitions answering 100, 90, 95
make the coordinator choose 90. -/
theorem updateSafeTime_chooses_minimum_witness :
    (afterSafeTimes (Launch (construct 3 ["idx"])) [100, 90, 95]).timestamp_chosen = true ∧
    (afterSafeTimes (Launch (construct 3 ["idx"])) [100, 90, 95]).read_time_for_backfill = 90 :=
  ⟨(updateSafeTime_chooses_minimum ["idx"] [100, 90, 95] (by decide)).1, by decide⟩

end BackfillTable
end master

namespace master
namespace BackfillTable

/-- Adding failed indexes makes exactly the named ones (and the earlier ones) failed. -/
lemma foldl_failed_lookup (message : String) (indexes : List TableId) :
    ∀ (acc : List (TableId × String)) (x : TableId),
      ((indexes.foldl
          (fun acc id => if (acc.lookup id).isSome then acc else (id, message) :: acc)
          acc).lookup x).isSome = ((acc.lookup x).isSome || decide (x ∈ indexes)) := by
  induction indexes with
  | nil => intro acc x; simp
  | cons id rest ih =>
      intro acc x
      rw [List.foldl_cons, ih]
      by_cases hid : (acc.lookup id).isSome = true
      · simp only [hid, if_true, List.mem_cons]
        by_cases hx : x = id
        · subst hx
          simp [hid]
        · simp [hx]
      · simp only [hid, Bool.false_eq_true, if_false, List.mem_cons]
        by_cases hx : x = id
        · subst hx
          simp [List.lookup_cons]
        · have hb : (x == id) = false := by simpa using hx
          simp [List.lookup_cons, hb, hx]

/-- Method `Done` changes the failed set exactly as `MarkIndexesAsFailed` does. -/
lemma done_failed_lookup (bt : BackfillTable) (s : Status) (failed : List TableId)
    (x : TableId) :
    (((Done bt s failed).failed_indexes_).lookup x).isSome =
      ((bt.failed_indexes_.lookup x).isSome || decide (x ∈ failed)) := by
  have h : (Done bt s failed).failed_indexes_ =
      (MarkIndexesAsFailed bt failed s.message).failed_indexes_ := by
    unfold Done
    by_cases hz : decrement (MarkIndexesAsFailed bt failed s.message).tablets_pending_ = 0
    · simp only [hz, if_true, FinalAggregation]
    · simp only [hz, if_false]
  rw [h]
  exact foldl_failed_lookup _ _ _ _

/-- After any reports, an index is in the failed set exactly when it was there before or
some report named it. -/
lemma afterReports_failed_lookup (reports : List Report) :
    ∀ (bt : BackfillTable) (x : TableId),
      (((afterReports bt reports).failed_indexes_).lookup x).isSome =
        ((bt.failed_indexes_.lookup x).isSome ||
          reports.any (fun r => decide (x ∈ r.failed_indexes))) := by
  induction reports with
  | nil => intro bt x; simp [afterReports]
  | cons r rest ih =>
      intro bt x
      have hstep : afterReports bt (r :: rest) =
          afterReports (Done bt r.status r.failed_indexes) rest := rfl
      rw [hstep, ih, done_failed_lookup]
      simp [Bool.or_assoc]

/-- Invariant of the backfill phase: with `n` partitions pending, fewer than `n` reports
leave the run not done and not aggregated; the `n`-th report completes it and aggregates
once, from the failed set as it stands then. -/
lemma afterReports_invariant (bt : BackfillTable) (n : Nat)
    (hp : bt.tablets_pending_ = n) (reports : List Report) :
    reports.length ≤ n →
      (afterReports bt reports).requested_index_ids_ = bt.requested_index_ids_ ∧
      (reports.length < n →
        (afterReports bt reports).done_ = bt.done_ ∧
        (afterReports bt reports).tablets_pending_ = n - reports.length ∧
        (afterReports bt reports).aggregations_ = bt.aggregations_) ∧
      (reports.length = n → 0 < n →
        (afterReports bt reports).done_ = true ∧
        (afterReports bt reports).tablets_pending_ = 0 ∧
        (afterReports bt reports).aggregations_ = bt.aggregations_ + 1 ∧
        (afterReports bt reports).index_states_ =
          (afterReports bt reports).requested_index_ids_.map
            (fun id =>
              match (afterReports bt reports).failed_indexes_.lookup id with
              | some message => (id, BackfillJobPB_State.FAILED, message)
              | none => (id, BackfillJobPB_State.SUCCESS, ""))) := by
  induction reports using List.reverseRecOn with
  | nil =>
      intro _
      refine ⟨rfl, fun _ => ⟨rfl, by simpa [afterReports] using hp, rfl⟩, ?_⟩
      intro h0 hpos
      simp at h0
      omega
  | append_singleton rs r ih =>
      intro hlen
      simp only [List.length_append, List.length_singleton] at hlen
      obtain ⟨hreq, hlt, -⟩ := ih (by omega)
      obtain ⟨hdone, hpend, hagg⟩ := hlt (by omega)
      have hstep : afterReports bt (rs ++ [r]) =
          Done (afterReports bt rs) r.status r.failed_indexes := by
        simp [afterReports, List.foldl_append]
      generalize afterReports bt rs = st at hreq hdone hpend hagg hstep
      have hdec : decrement (MarkIndexesAsFailed st r.failed_indexes r.status.message).tablets_pending_
          = n - rs.length - 1 := by
        have : (MarkIndexesAsFailed st r.failed_indexes r.status.message).tablets_pending_ =
            st.tablets_pending_ := rfl
        rw [this, hpend]
        exact decrement_of_pos _ (by omega)
      rw [hstep]
      simp only [List.length_append, List.length_singleton]
      by_cases hz : n - rs.length - 1 = 0
      · have hD : Done st r.status r.failed_indexes =
            FinalAggregation
              { MarkIndexesAsFailed st r.failed_indexes r.status.message with
                tablets_pending_ := 0 } := by
          unfold Done
          simp only [hdec, hz, if_true]
        rw [hD]
        refine ⟨hreq, fun h => absurd h (by omega), fun _ _ => ⟨rfl, rfl, ?_, rfl⟩⟩
        simp only [FinalAggregation, MarkIndexesAsFailed, hagg]
      · have hD : Done st r.status r.failed_indexes =
            { MarkIndexesAsFailed st r.failed_indexes r.status.message with
              tablets_pending_ := n - rs.length - 1 } := by
          unfold Done
          simp only [hdec, hz, if_false]
        rw [hD]
        refine ⟨hreq, fun _ => ⟨hdone, ?_, hagg⟩, fun h => absurd h (by omega)⟩
        show n - rs.length - 1 = n - (rs.length + 1)
        omega

/-- C2: in a run over `n` partitions (pending count `n`, not yet done), for every list of
`n` per-partition `Done` reports, in whatever order: after any `k < n` of them `done()` is
false, the pending count is `n - k > 0` and final aggregation has not run; after all `n`
the pending count is zero, `done()` is true, and final aggregation has run exactly once. -/
theorem done_exactly_once (bt : BackfillTable) (reports : List Report)
    (hpos : 0 < reports.length)
    (hp : bt.tablets_pending_ = reports.length) (hd : bt.done = false) :
    (∀ k, k < reports.length →
      (afterReports bt (reports.take k)).done = false ∧
      (afterReports bt (reports.take k)).tablets_pending_ = reports.length - k ∧
      0 < (afterReports bt (reports.take k)).tablets_pending_ ∧
      (afterReports bt (reports.take k)).aggregations_ = bt.aggregations_) ∧
    (afterReports bt reports).done = true ∧
    (afterReports bt reports).tablets_pending_ = 0 ∧
    (afterReports bt reports).aggregations_ = bt.aggregations_ + 1 := by
  constructor
  · intro k hk
    have hlk : (reports.take k).length = k := by
      rw [List.length_take]
      omega
    obtain ⟨-, hlt, -⟩ :=
      afterReports_invariant bt reports.length hp (reports.take k) (by omega)
    obtain ⟨h1, h2, h3⟩ := hlt (by omega)
    rw [hlk] at h2
    refine ⟨?_, h2, by omega, h3⟩
    show (afterReports bt (reports.take k)).done_ = false
    rw [h1]
    exact hd
  · obtain ⟨-, -, heq⟩ := afterReports_invariant bt reports.length hp reports le_rfl
    obtain ⟨h1, h2, h3, -⟩ := heq rfl hpos
    exact ⟨h1, h2, h3⟩

/-- Witness for `done_exactly_once`: three partitions, the second report naming a failed
index. -/
theorem done_exactly_once_witness :
    (afterReports (LaunchBackfill (construct 3 ["x", "y"]))
        [⟨Status.OK, []⟩, ⟨⟨StatusCode.kTimedOut, "boom", TransactionErrorCode.kNone⟩, ["x"]⟩,
         ⟨Status.OK, []⟩]).done = true :=
  (done_exactly_once (LaunchBackfill (construct 3 ["x", "y"]))
    [⟨Status.OK, []⟩, ⟨⟨StatusCode.kTimedOut, "boom", TransactionErrorCode.kNone⟩, ["x"]⟩,
     ⟨Status.OK, []⟩]
    (by decide) rfl rfl).2.1

end BackfillTable
end master

namespace master
namespace BackfillTable

/-- The state final aggregation records for one index, given the failed set. -/
lemma aggregated_entry_fst (failed : List (TableId × String)) (id : TableId) :
    (match failed.lookup id with
      | some message => (id, BackfillJobPB_State.FAILED, message)
      | none => (id, BackfillJobPB_State.SUCCESS, "")).1 = id := by
  cases failed.lookup id <;> rfl

/-- C3: in a run whose requested indexes include `X` and `Y`, for every list of per-partition
`Done` reports (any number of partitions, any order): if some report names `X` in its
`failed_indexes` and no report names `Y`, then final aggregation records `X` as `FAILED`
and `Y` as `SUCCESS`, and records no other state for either. -/
theorem failed_index_isolated (bt : BackfillTable) (reports : List Report) (X Y : TableId)
    (hpos : 0 < reports.length) (hp : bt.tablets_pending_ = reports.length)
    (hempty : bt.failed_indexes_ = [])
    (hX : X ∈ bt.requested_index_ids_) (hY : Y ∈ bt.requested_index_ids_)
    (hfail : ∃ r ∈ reports, X ∈ r.failed_indexes)
    (hok : ∀ r ∈ reports, Y ∉ r.failed_indexes) :
    (∃ message, (X, BackfillJobPB_State.FAILED, message) ∈
        (afterReports bt reports).index_states_) ∧
    (Y, BackfillJobPB_State.SUCCESS, "") ∈ (afterReports bt reports).index_states_ ∧
    (∀ state message, (X, state, message) ∈ (afterReports bt reports).index_states_ →
        state = BackfillJobPB_State.FAILED) ∧
    (∀ state message, (Y, state, message) ∈ (afterReports bt reports).index_states_ →
        state = BackfillJobPB_State.SUCCESS) := by
  obtain ⟨hreq, -, heq⟩ := afterReports_invariant bt reports.length hp reports le_rfl
  obtain ⟨-, -, -, hstates⟩ := heq rfl hpos
  rw [hreq] at hstates
  have hXs : ((afterReports bt reports).failed_indexes_.lookup X).isSome = true := by
    rw [afterReports_failed_lookup, hempty]
    obtain ⟨r, hr, hxr⟩ := hfail
    simp only [List.lookup_nil, Option.isSome_none, Bool.false_or, List.any_eq_true,
      decide_eq_true_eq]
    exact ⟨r, hr, hxr⟩
  have hYs : (afterReports bt reports).failed_indexes_.lookup Y = none := by
    have h : ((afterReports bt reports).failed_indexes_.lookup Y).isSome = false := by
      rw [afterReports_failed_lookup, hempty]
      simp only [List.lookup_nil, Option.isSome_none, Bool.false_or, List.any_eq_false,
        decide_eq_true_eq]
      exact hok
    cases hl : (afterReports bt reports).failed_indexes_.lookup Y with
    | none => rfl
    | some m => rw [hl] at h; exact absurd h (by simp)
  obtain ⟨mX, hmX⟩ := Option.isSome_iff_exists.mp hXs
  generalize (afterReports bt reports).failed_indexes_ = failed at hstates hmX hYs
  generalize (afterReports bt reports).index_states_ = states at hstates
  subst hstates
  refine ⟨⟨mX, ?_⟩, ?_, ?_, ?_⟩
  · refine List.mem_map.mpr ⟨X, hX, ?_⟩
    simp only [hmX]
  · refine List.mem_map.mpr ⟨Y, hY, ?_⟩
    simp only [hYs]
  · intro state message hmem
    obtain ⟨id, -, hid⟩ := List.mem_map.mp hmem
    have h1 := aggregated_entry_fst failed id
    rw [hid] at h1
    simp only at h1
    subst h1
    rw [hmX] at hid
    simp only [Prod.mk.injEq, true_and] at hid
    exact hid.1.symm
  · intro state message hmem
    obtain ⟨id, -, hid⟩ := List.mem_map.mp hmem
    have h1 := aggregated_entry_fst failed id
    rw [hid] at h1
    simp only at h1
    subst h1
    rw [hYs] at hid
    simp only [Prod.mk.injEq, true_and] at hid
    exact hid.1.symm

/-- Witness for `failed_index_isolated`: index `x` fails on the middle partition of three,
index `y` fails nowhere. -/
theorem failed_index_isolated_witness :
    (∃ message, ("x", BackfillJobPB_State.FAILED, message) ∈
      (afterReports (LaunchBackfill (construct 3 ["x", "y"]))
        [⟨Status.OK, []⟩, ⟨⟨StatusCode.kTimedOut, "boom", TransactionErrorCode.kNone⟩, ["x"]⟩,
         ⟨Status.OK, []⟩]).index_states_) ∧
    ("y", BackfillJobPB_State.SUCCESS, "") ∈
      (afterReports (LaunchBackfill (construct 3 ["x", "y"]))
        [⟨Status.OK, []⟩, ⟨⟨StatusCode.kTimedOut, "boom", TransactionErrorCode.kNone⟩, ["x"]⟩,
         ⟨Status.OK, []⟩]).index_states_ :=
  let h := failed_index_isolated (LaunchBackfill (construct 3 ["x", "y"]))
    [⟨Status.OK, []⟩, ⟨⟨StatusCode.kTimedOut, "boom", TransactionErrorCode.kNone⟩, ["x"]⟩,
     ⟨Status.OK, []⟩] "x" "y"
    (by decide) rfl rfl (by simp [LaunchBackfill, construct]) (by simp [LaunchBackfill, construct])
    ⟨⟨⟨StatusCode.kTimedOut, "boom", TransactionErrorCode.kNone⟩, ["x"]⟩, by simp, by simp⟩
    (by simp)
  ⟨h.1, h.2.1⟩

end BackfillTable
end master

namespace master
namespace BackfillTablet

end BackfillTablet
end master

namespace master
namespace MultiStageAlterTable

/-- Method `UpdateIndexPermission` either leaves the table as it is, or persists the applied
mapping under the next version. -/
lemma updateIndexPermission_cases (info : TableInfo)
    (perm_mapping : List (TableId × IndexPermissions)) (current_version : Option Nat) :
    (UpdateIndexPermission info perm_mapping current_version).2 = info ∨
    ((current_version = none ∨ current_version = some info.version) ∧
      (UpdateIndexPermission info perm_mapping current_version).2 =
        { version := info.version + 1, indexes := appliedIndexes info perm_mapping }) := by
  unfold UpdateIndexPermission
  by_cases hv : (current_version.isSome && current_version != some info.version) = true
  · left
    simp only [hv, if_true]
  · have hcv : current_version = none ∨ current_version = some info.version := by
      cases current_version with
      | none => exact Or.inl rfl
      | some v =>
          right
          simpa using hv
    by_cases hsame : appliedIndexes info perm_mapping = info.indexes
    · left
      simp only [hv, Bool.false_eq_true, if_false, hsame, if_true]
    · right
      refine ⟨hcv, ?_⟩
      simp only [hv, Bool.false_eq_true, if_false, hsame]

/-- With a current version equal to the persisted one, the persisted index list is the
applied mapping, whether or not anything changed. -/
lemma updateIndexPermission_indexes (info : TableInfo)
    (perm_mapping : List (TableId × IndexPermissions)) :
    (UpdateIndexPermission info perm_mapping (some info.version)).2.indexes =
      appliedIndexes info perm_mapping := by
  unfold UpdateIndexPermission
  have hv : ((some info.version).isSome && (some info.version) != some info.version) = false := by
    simp
  by_cases hsame : appliedIndexes info perm_mapping = info.indexes
  · simp only [hv, Bool.false_eq_true, if_false, hsame, if_true]
  · simp only [hv, Bool.false_eq_true, if_false, hsame]

/-- Applying a mapping keeps the index ids, in order. -/
lemma appliedIndexes_ids (info : TableInfo) (perm_mapping : List (TableId × IndexPermissions)) :
    (appliedIndexes info perm_mapping).map (fun idx => idx.table_id) =
      info.indexes.map (fun idx => idx.table_id) := by
  unfold appliedIndexes
  rw [List.map_map]
  apply List.map_congr_left
  intro idx _
  simp only [Function.comp]
  cases perm_mapping.lookup idx.table_id <;> rfl

/-- Applying a mapping whose entries are forward moves for the indexes they hit is, index
by index, a forward move. -/
lemma appliedIndexes_forward (info : TableInfo)
    (perm_mapping : List (TableId × IndexPermissions))
    (h : ∀ idx ∈ info.indexes, ∀ perm, perm_mapping.lookup idx.table_id = some perm →
      idx.index_permissions.Forward perm = true) :
    List.Forall₂
      (fun a b => b.table_id = a.table_id ∧
        a.index_permissions.Forward b.index_permissions = true)
      info.indexes (appliedIndexes info perm_mapping) := by
  unfold appliedIndexes
  rw [List.forall₂_map_right_iff, List.forall₂_same]
  intro idx hidx
  cases hl : perm_mapping.lookup idx.table_id with
  | none =>
      refine ⟨rfl, ?_⟩
      simp [IndexPermissions.Forward]
  | some perm => exact ⟨rfl, h idx hidx perm hl⟩

/-- Keeping a stage is a forward move. -/
lemma forward_refl (info : TableInfo) :
    List.Forall₂
      (fun a b => b.table_id = a.table_id ∧
        a.index_permissions.Forward b.index_permissions = true)
      info.indexes info.indexes := by
  rw [List.forall₂_same]
  intro idx _
  refine ⟨rfl, ?_⟩
  simp [IndexPermissions.Forward]

/-- With pairwise distinct index ids, the mapping built from the index list itself assigns
to each index exactly what was computed from that index. -/
lemma lookup_filterMap_self (f : IndexPermissions → Option IndexPermissions) :
    ∀ (indexes : List IndexInfoPB), (indexes.map (fun idx => idx.table_id)).Nodup →
      ∀ idx ∈ indexes,
        (indexes.filterMap
          (fun i => (f i.index_permissions).map (fun perm => (i.table_id, perm)))).lookup
            idx.table_id = f idx.index_permissions := by
  intro indexes
  induction indexes with
  | nil => intro _ idx h; exact absurd h (List.not_mem_nil _)
  | cons a rest ih =>
      intro hnd idx hidx
      simp only [List.map_cons, List.nodup_cons, List.mem_map, not_exists, not_and] at hnd
      obtain ⟨hfresh, hrest⟩ := hnd
      have hkeys : ∀ p ∈ rest.filterMap
          (fun i => (f i.index_permissions).map (fun perm => (i.table_id, perm))),
          ∃ i ∈ rest, i.table_id = p.1 := by
        intro p hp
        obtain ⟨i, hi, hfi⟩ := List.mem_filterMap.mp hp
        cases hfp : f i.index_permissions with
        | none => rw [hfp] at hfi; exact absurd hfi (by simp)
        | some perm =>
            rw [hfp] at hfi
            simp only [Option.map_some', Option.some.injEq] at hfi
            exact ⟨i, hi, by rw [← hfi]⟩
      rcases List.mem_cons.mp hidx with heq | hmem
      · subst heq
        cases hfa : f idx.index_permissions with
        | none =>
            simp only [List.filterMap_cons, hfa, Option.map_none']
            rw [List.lookup_eq_none_iff]
            intro p hp
            obtain ⟨i, hi, hip⟩ := hkeys p hp
            simp only [bne_iff_ne, ne_eq]
            intro hc
            exact hfresh i hi (by rw [hip, hc])
        | some perm =>
            simp only [List.filterMap_cons, hfa, Option.map_some', List.lookup_cons, beq_self_eq_true]
      · have hne : idx.table_id ≠ a.table_id := fun hc => hfresh idx hmem hc
        have hb : (idx.table_id == a.table_id) = false := by simpa using hne
        cases hfa : f a.index_permissions with
        | none =>
            simp only [List.filterMap_cons, hfa, Option.map_none']
            exact ih hrest idx hmem
        | some perm =>
            simp only [List.filterMap_cons, hfa, Option.map_some', List.lookup_cons, hb]
            exact ih hrest idx hmem

/-- A mapping listing each id once with a computed stage assigns that stage to the listed
ids and nothing to the others. -/
lemma lookup_map_ids (g : TableId → IndexPermissions) (ids : List TableId) (id : TableId) :
    (ids.map (fun i => (i, g i))).lookup id = if id ∈ ids then some (g id) else none := by
  induction ids with
  | nil => simp
  | cons a rest ih =>
      by_cases hc : id = a
      · subst hc
        simp [List.lookup_cons]
      · have hb : (id == a) = false := by simpa using hc
        simp only [List.map_cons, List.lookup_cons, hb, ih, List.mem_cons, hc, false_or]

end MultiStageAlterTable
end master

namespace master
namespace MultiStageAlterTable

/-- Advancing by one stage is a forward move. -/
lemma nextPermission_forward (p q : IndexPermissions) (h : NextPermission p = some q) :
    p.Forward q = true := by
  cases p <;> simp [NextPermission] at h <;> subst h <;> decide

/-- One alter round keeps the state consistent and moves every index forward. -/
lemma alterRound_step (s : AlterState) (current_version : Nat) (hs : Consistent s) :
    Consistent (step s (AlterEvent.alterRound current_version)) ∧
    List.Forall₂
      (fun a b => b.table_id = a.table_id ∧
        a.index_permissions.Forward b.index_permissions = true)
      s.info.indexes (step s (AlterEvent.alterRound current_version)).info.indexes := by
  obtain ⟨hnd, hruns⟩ := hs
  by_cases hv : s.info.version ≠ current_version
  · have hL : LaunchNextTableInfoVersionIfNecessary s.info current_version = (s.info, none) := by
      unfold LaunchNextTableInfoVersionIfNecessary
      exact if_pos hv
    have hstep : step s (AlterEvent.alterRound current_version) = s := by
      simp only [step, hL]
    rw [hstep]
    exact ⟨⟨hnd, hruns⟩, forward_refl _⟩
  · have hv2 : current_version = s.info.version := by
      by_contra hc
      exact hv (fun h => hc h.symm)
    subst hv2
    generalize hm : s.info.indexes.filterMap
      (fun idx => (NextPermission idx.index_permissions).map (fun perm => (idx.table_id, perm)))
      = m
    have hlook : ∀ idx ∈ s.info.indexes, m.lookup idx.table_id =
        NextPermission idx.index_permissions := by
      intro idx hidx
      rw [← hm]
      exact lookup_filterMap_self NextPermission s.info.indexes hnd idx hidx
    generalize hu : (UpdateIndexPermission s.info m (some s.info.version)).2 = updated
    have hidxs : updated.indexes = appliedIndexes s.info m := by
      rw [← hu]
      exact updateIndexPermission_indexes _ _
    have hcases : updated = s.info ∨ updated.version = s.info.version + 1 := by
      rcases updateIndexPermission_cases s.info m (some s.info.version) with h | ⟨-, h⟩
      · left; rw [← hu, h]
      · right; rw [← hu, h]
    have hinfo : (step s (AlterEvent.alterRound s.info.version)).info = updated := by
      simp only [step, LaunchNextTableInfoVersionIfNecessary, ne_eq, not_true_eq_false,
        if_false, hm, hu]
      by_cases he : ((m.filter (fun e => e.2 == IndexPermissions.BACKFILL)).map
          (fun e => e.1)).isEmpty = true
      · simp only [he, if_true]
      · simp only [he, Bool.false_eq_true, if_false]
    have hrunsStep : ∀ run ∈ (step s (AlterEvent.alterRound s.info.version)).runs,
        run ∈ s.runs ∨
        run = ⟨updated.version,
          (m.filter (fun e => e.2 == IndexPermissions.BACKFILL)).map (fun e => e.1)⟩ := by
      intro run hrun
      simp only [step, LaunchNextTableInfoVersionIfNecessary, ne_eq, not_true_eq_false,
        if_false, hm, hu] at hrun
      by_cases he : ((m.filter (fun e => e.2 == IndexPermissions.BACKFILL)).map
          (fun e => e.1)).isEmpty = true
      · simp only [he, if_true] at hrun
        exact Or.inl hrun
      · simp only [he, Bool.false_eq_true, if_false, List.mem_append, List.mem_singleton] at hrun
        exact hrun
    have hfwd : List.Forall₂
        (fun a b => b.table_id = a.table_id ∧
          a.index_permissions.Forward b.index_permissions = true)
        s.info.indexes updated.indexes := by
      rw [hidxs]
      apply appliedIndexes_forward
      intro idx hidx perm hperm
      rw [hlook idx hidx] at hperm
      exact nextPermission_forward _ _ hperm
    rw [hinfo]
    refine ⟨⟨?_, ?_⟩, hfwd⟩
    · rw [hinfo, hidxs, appliedIndexes_ids]
      exact hnd
    · intro run hrun
      rw [hinfo]
      rcases hrunsStep run hrun with hold | hnew
      · obtain ⟨hle, hprop⟩ := hruns run hold
        rcases hcases with hsame | hnext
        · rw [hsame]
          exact ⟨hle, hprop⟩
        · exact ⟨by omega, fun h => absurd h (by omega)⟩
      · subst hnew
        refine ⟨le_refl _, fun _ => ?_⟩
        intro idx2 hidx2 hel
        rw [hidxs] at hidx2
        obtain ⟨idx, hidx, hfidx⟩ := List.mem_map.mp hidx2
        have hid : idx2.table_id = idx.table_id := by
          rw [← hfidx]
          cases m.lookup idx.table_id <;> rfl
        obtain ⟨e, he, he1⟩ := List.mem_map.mp hel
        obtain ⟨hem, heB⟩ := List.mem_filter.mp he
        have heB2 : e.2 = IndexPermissions.BACKFILL := by simpa using heB
        rw [← hm] at hem
        obtain ⟨i0, hi0, hfi0⟩ := List.mem_filterMap.mp hem
        cases hn0 : NextPermission i0.index_permissions with
        | none => rw [hn0] at hfi0; exact absurd hfi0 (by simp)
        | some perm =>
            rw [hn0] at hfi0
            simp only [Option.map_some', Option.some.injEq] at hfi0
            have hi0id : i0.table_id = idx.table_id := by
              have : e.1 = i0.table_id := by rw [← hfi0]
              rw [← this, he1, hid]
            have hi0eq : i0 = idx := List.inj_on_of_nodup_map hnd hi0 hidx hi0id
            have hperm : perm = IndexPermissions.BACKFILL := by
              have : e.2 = perm := by rw [← hfi0]
              rw [← this, heB2]
            have hl := hlook idx hidx
            rw [← hi0eq, hn0, hperm] at hl
            rw [← hfidx, ← hi0eq, hl]

/-- The commit at the end of a run keeps the state consistent and moves every index
forward. -/
lemma backfillDone_step (s : AlterState) (i : Nat) (failed_indexes : List TableId)
    (hs : Consistent s) :
    Consistent (step s (AlterEvent.backfillDone i failed_indexes)) ∧
    List.Forall₂
      (fun a b => b.table_id = a.table_id ∧
        a.index_permissions.Forward b.index_permissions = true)
      s.info.indexes (step s (AlterEvent.backfillDone i failed_indexes)).info.indexes := by
  obtain ⟨hnd, hruns⟩ := hs
  cases hget : s.runs.get? i with
  | none =>
      have hstep : step s (AlterEvent.backfillDone i failed_indexes) = s := by
        simp only [step, hget]
      rw [hstep]
      exact ⟨⟨hnd, hruns⟩, forward_refl _⟩
  | some run =>
      have hrun : run ∈ s.runs := List.get?_mem hget
      have hstep : step s (AlterEvent.backfillDone i failed_indexes) =
          { info := UpdateIndexPermissionsForIndexes s.info run failed_indexes
            runs := s.runs.eraseIdx i } := by
        simp only [step, hget]
      rw [hstep]
      generalize hm : run.requested_index_ids_.map
        (fun id =>
          if failed_indexes.contains id then (id, IndexPermissions.FAILED)
          else (id, IndexPermissions.PUBLIC)) = m
      have hU : UpdateIndexPermissionsForIndexes s.info run failed_indexes =
          (UpdateIndexPermission s.info m (some run.schema_version_)).2 := by
        unfold UpdateIndexPermissionsForIndexes
        rw [hm]
      rw [hU]
      rcases updateIndexPermission_cases s.info m (some run.schema_version_) with h | ⟨hcv, h⟩
      · rw [h]
        refine ⟨⟨hnd, ?_⟩, forward_refl _⟩
        intro r hr
        exact hruns r (List.mem_of_mem_eraseIdx hr)
      · rw [h]
        have hver : run.schema_version_ = s.info.version := by
          rcases hcv with hc | hc
          · exact absurd hc (by simp)
          · simpa using hc
        have hbf := (hruns run hrun).2 hver
        refine ⟨⟨?_, ?_⟩, ?_⟩
        · show ((appliedIndexes s.info m).map (fun idx => idx.table_id)).Nodup
          rw [appliedIndexes_ids]
          exact hnd
        · intro r hr
          have hle := (hruns r (List.mem_of_mem_eraseIdx hr)).1
          exact ⟨by show r.schema_version_ ≤ s.info.version + 1; omega,
            fun hc => absurd hc (by show ¬ r.schema_version_ = s.info.version + 1; omega)⟩
        · show List.Forall₂ _ s.info.indexes (appliedIndexes s.info m)
          apply appliedIndexes_forward
          intro idx hidx perm hperm
          have hm2 : m = run.requested_index_ids_.map
              (fun id => (id, if failed_indexes.contains id then IndexPermissions.FAILED
                else IndexPermissions.PUBLIC)) := by
            rw [← hm]
            apply List.map_congr_left
            intro id _
            by_cases hc : failed_indexes.contains id = true
            · simp only [hc, if_true]
            · simp only [hc, Bool.false_eq_true, if_false]
          rw [hm2, lookup_map_ids] at hperm
          by_cases hin : idx.table_id ∈ run.requested_index_ids_
          · rw [hbf idx hidx hin]
            simp only [hin, if_true, Option.some.injEq] at hperm
            rw [← hperm]
            by_cases hc : failed_indexes.contains idx.table_id = true
            · simp only [hc, if_true]
              decide
            · simp only [hc, Bool.false_eq_true, if_false]
              decide
          · simp only [hin, if_false] at hperm
            exact absurd hperm (by simp)

/-- Every state reached from a table with pairwise distinct index ids is consistent. -/
lemma runEvents_consistent (info : TableInfo)
    (hnd : (info.indexes.map (fun idx => idx.table_id)).Nodup) (events : List AlterEvent) :
    Consistent (runEvents info events) := by
  induction events using List.reverseRecOn with
  | nil =>
      refine ⟨hnd, ?_⟩
      intro run hrun
      exact absurd hrun (List.not_mem_nil _)
  | append_singleton es e ih =>
      have hstep : runEvents info (es ++ [e]) = step (runEvents info es) e := by
        simp [runEvents, List.foldl_append]
      rw [hstep]
      cases e with
      | alterRound v => exact (alterRound_step _ v ih).1
      | backfillDone i failed => exact (backfillDone_step _ i failed ih).1

/-- C8: starting from an indexed table with pairwise distinct index ids, after any sequence
of alter rounds and coordinator completions, every further transition made by
`MultiStageAlterTable` / `BackfillTable` keeps each index where it is, or moves it from a
non-terminal stage to a later stage in the order `DELETE_ONLY`, `WRITE_AND_DELETE`,
`BACKFILL`, `PUBLIC` or into `FAILED`; in particular `BACKFILL` to `WRITE_AND_DELETE` is not
such a move. -/
theorem permission_transitions_forward (info : TableInfo) (events : List AlterEvent)
    (e : AlterEvent) (hnd : (info.indexes.map (fun idx => idx.table_id)).Nodup) :
    List.Forall₂
      (fun a b => b.table_id = a.table_id ∧
        a.index_permissions.Forward b.index_permissions = true)
      (runEvents info events).info.indexes
      (step (runEvents info events) e).info.indexes ∧
    IndexPermissions.Forward IndexPermissions.BACKFILL IndexPermissions.WRITE_AND_DELETE
      = false ∧
    (∀ p q : IndexPermissions, p.Forward q = true →
      q = p ∨ (p ≠ IndexPermissions.FAILED ∧
        (q = IndexPermissions.FAILED ∨ p.rank < q.rank))) := by
  refine ⟨?_, by decide, ?_⟩
  · cases e with
    | alterRound v => exact (alterRound_step _ v (runEvents_consistent info hnd events)).2
    | backfillDone i failed =>
        exact (backfillDone_step _ i failed (runEvents_consistent info hnd events)).2
  · intro p q h
    cases p <;> cases q <;> simp [IndexPermissions.Forward, IndexPermissions.rank] at h ⊢

/-- Witness for `permission_transitions_forward`: one index in `WRITE_AND_DELETE`, after one
alter round, at the following completion of its coordinator. -/
theorem permission_transitions_forward_witness :
    List.Forall₂
      (fun a b => b.table_id = a.table_id ∧
        a.index_permissions.Forward b.index_permissions = true)
      (runEvents ⟨7, [⟨"idx", IndexPermissions.WRITE_AND_DELETE⟩]⟩
        [AlterEvent.alterRound 7]).info.indexes
      (step (runEvents ⟨7, [⟨"idx", IndexPermissions.WRITE_AND_DELETE⟩]⟩
        [AlterEvent.alterRound 7]) (AlterEvent.backfillDone 0 [])).info.indexes :=
  (permission_transitions_forward ⟨7, [⟨"idx", IndexPermissions.WRITE_AND_DELETE⟩]⟩
    [AlterEvent.alterRound 7] (AlterEvent.backfillDone 0 []) (by simp)).1

end MultiStageAlterTable
end master

namespace tools

open master (HybridTime)

/-- A decimal digit is neither white space nor a sign. -/
lemma isdigit_facts (c : Char) (h : isdigit c = true) :
    isspace c = false ∧ c ≠ '-' ∧ c ≠ '+' ∧ c.toNat - '0'.toNat ≤ 9 := by
  have h0 : '0'.toNat = 48 := by decide
  have h9 : '9'.toNat = 57 := by decide
  simp only [isdigit, h0, h9, Bool.and_eq_true, decide_eq_true_eq] at h
  refine ⟨?_, ?_, ?_, ?_⟩
  · have hs : c ≠ ' ' := by
      intro hc
      have : c.toNat = 32 := by rw [hc]; decide
      omega
    simp only [isspace, Bool.or_eq_false_iff, Bool.and_eq_false_iff, beq_eq_false_iff_ne, ne_eq,
      decide_eq_false_iff_not]
    exact ⟨hs, by omega⟩
  · intro hc
    have : c.toNat = 45 := by rw [hc]; decide
    omega
  · intro hc
    have : c.toNat = 43 := by rw [hc]; decide
    omega
  · rw [h0]
    omega

/-- Reading digits left to right gives the number whose base-ten digits they are. -/
lemma foldl_decimal (digits : List Char) :
    ∀ acc : Nat,
      digits.foldl (fun acc c => 10 * acc + (c.toNat - '0'.toNat)) acc =
        acc * 10 ^ digits.length +
          Nat.ofDigits 10 (digits.reverse.map (fun c => c.toNat - '0'.toNat)) := by
  induction digits with
  | nil => intro acc; simp
  | cons c rest ih =>
      intro acc
      rw [List.foldl_cons, ih]
      simp only [List.length_cons, List.reverse_cons, List.map_append, List.map_cons,
        List.map_nil, Nat.ofDigits_append, List.length_map, List.length_reverse,
        Nat.ofDigits_singleton]
      ring

/-- A run of `n` decimal digits is a number below `10 ^ n`. -/
lemma decimalValue_lt (digits : List Char) (h : digits.all isdigit = true) :
    decimalValue digits < 10 ^ digits.length := by
  unfold decimalValue
  rw [foldl_decimal, Nat.zero_mul, Nat.zero_add]
  have hlen : (digits.reverse.map (fun c => c.toNat - '0'.toNat)).length = digits.length := by
    simp
  rw [← hlen]
  apply Nat.ofDigits_lt_base_pow_length (by norm_num)
  intro d hd
  obtain ⟨c, hc, rfl⟩ := List.mem_map.mp hd
  have hcd : isdigit c = true := List.all_eq_true.mp h c (List.mem_reverse.mp hc)
  have := (isdigit_facts c hcd).2.2.2
  omega

/-- On sixteen decimal digits `std::stoul` does not throw and returns their value. -/
lemma stoul_sixteen_digits (input : String) (h : regex_match_int input = true) :
    stoul input = some (decimalValue input.data) := by
  simp only [regex_match_int, Bool.and_eq_true, beq_iff_eq] at h
  obtain ⟨hlen, hall⟩ := h
  obtain ⟨c, rest, hdata⟩ : ∃ c rest, input.data = c :: rest := by
    cases hd : input.data with
    | nil => rw [hd] at hlen; simp at hlen
    | cons c rest => exact ⟨c, rest, rfl⟩
  have hc : isdigit c = true := by
    rw [hdata] at hall
    simp only [List.all_cons, Bool.and_eq_true] at hall
    exact hall.1
  obtain ⟨hsp, hminus, hplus, -⟩ := isdigit_facts c hc
  have hdrop : input.data.dropWhile isspace = input.data := by
    rw [hdata, List.dropWhile_cons, hsp]
    simp
  have hpos : (input.data.head? == some '+') = false := by
    rw [hdata]
    simp [hplus]
  have hneg : (input.data.head? == some '-') = false := by
    rw [hdata]
    simp [hminus]
  have htake : input.data.takeWhile isdigit = input.data := by
    rw [List.takeWhile_eq_self_iff]
    exact fun x hx => List.all_eq_true.mp hall x hx
  have hne : input.data.isEmpty = false := by
    rw [hdata]
    rfl
  have hlt : ¬ kWordModulus ≤ decimalValue input.data := by
    have h1 := decimalValue_lt input.data hall
    rw [hlen] at h1
    have h2 : (10 : Nat) ^ 16 < kWordModulus := by
      unfold kWordModulus
      norm_num
    omega
  unfold stoul
  simp only [hdrop, hneg, hpos, Bool.or_false, Bool.false_eq_true, if_false, htake, hne, hlt]

/-- C11: for every input that, after trimming leading and trailing white space, consists of
exactly sixteen decimal digits, `ParseHybridTime` returns `HybridTime::FromMicros(n)` with
`n` the number whose decimal digits those are, whatever the wall clock and the interval and
timestamp parsers do. -/
theorem parseHybridTime_sixteen_digits (env : TimeEnv) (input : String)
    (h : (trim input).data.length = 16 ∧ ∀ c ∈ (trim input).data, '0' ≤ c ∧ c ≤ '9') :
    ParseHybridTime env input =
      some (Result.value (env.FromMicros
        (Nat.ofDigits 10 ((trim input).data.reverse.map (fun c => c.toNat - '0'.toNat))))) ∧
    ∀ env2 : TimeEnv, env2.FromMicros = env.FromMicros →
      ParseHybridTime env2 input = ParseHybridTime env input := by
  have hm : regex_match_int (trim input) = true := by
    simp only [regex_match_int, Bool.and_eq_true, beq_iff_eq, List.all_eq_true]
    refine ⟨h.1, fun c hc => ?_⟩
    obtain ⟨h0, h9⟩ := h.2 c hc
    simp only [isdigit, Bool.and_eq_true, decide_eq_true_eq]
    exact ⟨h0, h9⟩
  have hval : decimalValue (trim input).data =
      Nat.ofDigits 10 ((trim input).data.reverse.map (fun c => c.toNat - '0'.toNat)) := by
    unfold decimalValue
    rw [foldl_decimal, Nat.zero_mul, Nat.zero_add]
  have key : ∀ e : TimeEnv, ParseHybridTime e input =
      some (Result.value (e.FromMicros
        (Nat.ofDigits 10 ((trim input).data.reverse.map (fun c => c.toNat - '0'.toNat))))) := by
    intro e
    unfold ParseHybridTime
    simp only [hm, if_true, stoul_sixteen_digits _ hm, hval]
  refine ⟨key env, fun env2 h2 => ?_⟩
  rw [key env2, key env, h2]

/-- Witness for `parseHybridTime_sixteen_digits`: a padded sixteen-digit timestamp. -/
theorem parseHybridTime_sixteen_digits_witness :
    ParseHybridTime ⟨Result.value 0, fun _ => Result.value 0, fun _ => Result.value 0, id⟩
      " 1600000000000000 " = some (Result.value 1600000000000000) :=
  ((parseHybridTime_sixteen_digits
    ⟨Result.value 0, fun _ => Result.value 0, fun _ => Result.value 0, id⟩
    " 1600000000000000 " (by decide)).1).trans (by decide)

end tools

namespace tools

open master (HybridTime)

/-- An input starting with a minus sign is not sixteen digits. -/
lemma regex_match_int_minus (input : String) (rest : List Char)
    (h : input.data = '-' :: rest) : regex_match_int input = false := by
  have hd : isdigit '-' = false := by decide
  simp only [regex_match_int, h, List.all_cons, hd, Bool.false_and, Bool.and_false]

/-- Without wrap-around the unsigned difference is the difference. -/
lemma microsMinus_exact (now : Nat) (delta : Int) (hnn : 0 ≤ (now : Int) - delta)
    (hlt : (now : Int) - delta < (2 : Int) ^ 64) :
    ((MicrosMinus now delta : Nat) : Int) = (now : Int) - delta := by
  unfold MicrosMinus
  rw [Int.emod_eq_of_lt hnn hlt, Int.toNat_of_nonneg hnn]

/-- C12: for every input that, after trimming, begins with a minus sign (such an input is
never sixteen decimal digits), `ParseHybridTime` returns the error of the wall clock when
reading it fails, the error of `IntervalFromString` on the text after the minus sign when
that fails, and otherwise `HybridTime::FromMicros(now - d)`, the difference being the
unsigned 64-bit one: it is exactly `now - d` whenever that number is a 64-bit unsigned
value, in particular whenever `0 ≤ d ≤ now`. -/
theorem parseHybridTime_minus_interval (env : TimeEnv) (input : String) (rest : List Char)
    (h : (trim input).data = '-' :: rest) :
    regex_match_int (trim input) = false ∧
    (∀ s, env.WallClockNow = Result.error s →
      ParseHybridTime env input = some (Result.error s)) ∧
    (∀ now s, env.WallClockNow = Result.value now →
      env.IntervalFromString (String.mk rest) = Result.error s →
      ParseHybridTime env input = some (Result.error s)) ∧
    (∀ now d, env.WallClockNow = Result.value now →
      env.IntervalFromString (String.mk rest) = Result.value d →
      ParseHybridTime env input = some (Result.value (env.FromMicros (MicrosMinus now d))) ∧
      MicrosMinus now d = (((now : Int) - d) % (2 : Int) ^ 64).toNat ∧
      (0 ≤ (now : Int) - d → (now : Int) - d < (2 : Int) ^ 64 →
        ((MicrosMinus now d : Nat) : Int) = (now : Int) - d)) := by
  have hre := regex_match_int_minus (trim input) rest h
  have hbranch : (!(trim input).data.isEmpty && (trim input).data.head? == some '-') = true := by
    rw [h]
    rfl
  have hdrop : (trim input).data.drop 1 = rest := by
    rw [h]
    rfl
  refine ⟨hre, ?_, ?_, ?_⟩
  · intro s hs
    unfold ParseHybridTime
    simp only [hre, Bool.false_eq_true, if_false, hbranch, if_true, hs]
  · intro now s hnow hs
    unfold ParseHybridTime
    simp only [hre, Bool.false_eq_true, if_false, hbranch, if_true, hnow, hdrop, hs]
  · intro now d hnow hd
    refine ⟨?_, rfl, microsMinus_exact now d⟩
    unfold ParseHybridTime
    simp only [hre, Bool.false_eq_true, if_false, hbranch, if_true, hnow, hdrop, hd]

/-- Witness for `parseHybridTime_minus_interval`: the clock reads 1000 and the interval is
400 microseconds. -/
theorem parseHybridTime_minus_interval_witness :
    ParseHybridTime ⟨Result.value 1000, fun _ => Result.value 400, fun _ => Result.value 0, id⟩
      " -400us" = some (Result.value (MicrosMinus 1000 400)) ∧
    ((MicrosMinus 1000 400 : Nat) : Int) = 1000 - 400 :=
  ⟨((parseHybridTime_minus_interval
      ⟨Result.value 1000, fun _ => Result.value 400, fun _ => Result.value 0, id⟩
      " -400us" ['4', '0', '0', 'u', 's'] (by decide)).2.2.2 1000 400 rfl rfl).1,
   microsMinus_exact 1000 400 (by norm_num) (by norm_num)⟩

end tools

namespace tools

open master (HybridTime)

/-- A handler that reached the client did call it. -/
lemma callClient_calls (client : ClientCall → Status) (call : ClientCall) (msg : String) :
    (callClient client call msg).calls = [call] := by
  unfold callClient
  by_cases h : (client call).ok = true
  · simp only [h, if_true]
  · simp only [h, Bool.false_eq_true, if_false]

/-- Once the argument count is accepted, `restore_snapshot` can only answer with the
invalid-arguments status and no client call if the time parser answered with it. -/
lemma restore_snapshot_after_parse (client : ClientCall → Status) (snapshot_id : String)
    (parsed : Option (Result HybridTime)) :
    (match parsed with
      | none => none
      | some (Result.error s) => some ⟨s, []⟩
      | some (Result.value timestamp) =>
          some (callClient client (ClientCall.RestoreSnapshot snapshot_id timestamp)
            ("Unable to restore snapshot " ++ snapshot_id))) =
      some (⟨kInvalidArguments, []⟩ : CommandResult) →
    parsed = some (Result.error kInvalidArguments) := by
  cases parsed with
  | none => simp
  | some r =>
      cases r with
      | error s =>
          intro hc
          simp only [Option.some.injEq, CommandResult.mk.injEq, and_true] at hc
          rw [hc]
      | value ts =>
          intro hc
          simp only [Option.some.injEq] at hc
          have h1 := callClient_calls client (ClientCall.RestoreSnapshot snapshot_id ts)
            ("Unable to restore snapshot " ++ snapshot_id)
          rw [hc] at h1
          exact absurd h1 (by simp)

/-- C13: provided the time parser never answers with the invalid-arguments status itself,
`restore_snapshot` returns the invalid-arguments status without calling the client if and
only if the number of arguments is 0, or greater than 3, or is 3 with a second argument
different from `minus`; and with three arguments `[id, minus, X]` it does exactly what the
two-argument form `[id, -X]` does: both parse the string `-X`. -/
theorem restore_snapshot_arguments (env : TimeEnv) (client : ClientCall → Status)
    (args : List String)
    (hparse : ∀ s, ParseHybridTime env s ≠ some (Result.error kInvalidArguments)) :
    (restore_snapshot env client args = some ⟨kInvalidArguments, []⟩ ↔
      (args.length = 0 ∨ 3 < args.length ∨
        (args.length = 3 ∧ args.getD 1 "" ≠ "minus"))) ∧
    (∀ id X : String,
      restore_snapshot env client [id, "minus", X] =
        restore_snapshot env client [id, "-" ++ X] ∧
      restore_snapshot env client [id, "minus", X] =
        (match ParseHybridTime env ("-" ++ X) with
          | none => none
          | some (Result.error s) => some ⟨s, []⟩
          | some (Result.value timestamp) =>
              some (callClient client (ClientCall.RestoreSnapshot id timestamp)
                ("Unable to restore snapshot " ++ id)))) := by
  constructor
  · rcases args with _ | ⟨a, _ | ⟨b, _ | ⟨c, _ | ⟨d, rest⟩⟩⟩⟩
    · simp [restore_snapshot]
    · have h1 : restore_snapshot env client [a] =
          some (callClient client (ClientCall.RestoreSnapshot a HybridTime.kInvalid)
            ("Unable to restore snapshot " ++ a)) := by
        simp [restore_snapshot]
      rw [h1]
      constructor
      · intro hc
        exact absurd (restore_snapshot_after_parse client a
          (some (Result.value HybridTime.kInvalid)) hc) (by simp)
      · intro hc
        simp at hc
    · have h1 : restore_snapshot env client [a, b] =
          (match ParseHybridTime env b with
            | none => none
            | some (Result.error s) => some ⟨s, []⟩
            | some (Result.value timestamp) =>
                some (callClient client (ClientCall.RestoreSnapshot a timestamp)
                  ("Unable to restore snapshot " ++ a))) := by
        simp [restore_snapshot]
      rw [h1]
      constructor
      · intro hc
        exact absurd (restore_snapshot_after_parse client a _ hc) (hparse b)
      · intro hc
        simp at hc
    · by_cases hm : b = "minus"
      · subst hm
        have h1 : restore_snapshot env client [a, "minus", c] =
            (match ParseHybridTime env ("-" ++ c) with
              | none => none
              | some (Result.error s) => some ⟨s, []⟩
              | some (Result.value timestamp) =>
                  some (callClient client (ClientCall.RestoreSnapshot a timestamp)
                    ("Unable to restore snapshot " ++ a))) := by
          simp [restore_snapshot, kMinus]
        rw [h1]
        constructor
        · intro hc
          exact absurd (restore_snapshot_after_parse client a _ hc) (hparse _)
        · intro hc
          simp at hc
      · have h1 : restore_snapshot env client [a, b, c] = some ⟨kInvalidArguments, []⟩ := by
          simp [restore_snapshot, kMinus, hm]
        rw [h1]
        simp [hm]
    · have h1 : restore_snapshot env client (a :: b :: c :: d :: rest) =
          some ⟨kInvalidArguments, []⟩ := by
        simp [restore_snapshot]
      rw [h1]
      simp
  · intro id X
    constructor
    · simp [restore_snapshot, kMinus]
    · simp [restore_snapshot, kMinus]

/-- Witness for `restore_snapshot_arguments`: parsers that always succeed, three arguments
with a second one that is not `minus`. -/
theorem restore_snapshot_arguments_witness :
    restore_snapshot ⟨Result.value 0, fun _ => Result.value 0, fun _ => Result.value 0, id⟩
      (fun _ => Status.OK) ["snap", "plus", "5s"] = some ⟨kInvalidArguments, []⟩ :=
  ((restore_snapshot_arguments
    ⟨Result.value 0, fun _ => Result.value 0, fun _ => Result.value 0, id⟩
    (fun _ => Status.OK) ["snap", "plus", "5s"]
    (by
      intro s
      unfold ParseHybridTime
      by_cases h1 : regex_match_int (trim s) = true
      · simp only [h1, if_true]
        cases stoul (trim s) <;> simp
      · simp only [h1, Bool.false_eq_true, if_false]
        by_cases h2 : (!(trim s).data.isEmpty && (trim s).data.head? == some '-') = true
        · simp only [h2, if_true]
          simp
        · simp only [h2, Bool.false_eq_true, if_false]
          simp)).1).mpr
    (Or.inr (Or.inr ⟨rfl, by decide⟩))

end tools

namespace tools

/-- The pieces `boost::split` returns, joined by commas again, are the input. -/
lemma splitComma_intercalate (input : String) :
    [','].intercalate ((splitComma input).map String.data) = input.data := by
  unfold splitComma
  rw [List.map_map]
  have : (String.data ∘ String.mk) = id := by
    funext l
    rfl
  rw [this, List.map_id]
  exact List.intercalate_splitOn _ ','

/-- No piece produced by splitting on a predicate holds an element satisfying it. -/
lemma splitOnP_no_separator {α : Type} (p : α → Bool) (xs : List α) :
    ∀ l ∈ xs.splitOnP p, ∀ x ∈ l, p x = false := by
  induction xs with
  | nil => simp
  | cons a as ih =>
      rw [List.splitOnP_cons]
      by_cases h : p a = true
      · rw [if_pos h]
        intro l hl
        rcases List.mem_cons.mp hl with rfl | hl
        · simp
        · exact ih l hl
      · rw [if_neg h]
        cases hs : List.splitOnP p as with
        | nil => exact absurd hs (List.splitOnP_ne_nil _ _)
        | cons hd tl =>
            rw [hs] at ih
            intro l hl
            simp only [List.modifyHead_cons, List.mem_cons] at hl
            rcases hl with rfl | hl
            · intro x hx
              rcases List.mem_cons.mp hx with rfl | hx
              · simpa using h
              · exact ih hd (List.mem_cons_self _ _) x hx
            · exact ih l (List.mem_cons_of_mem _ hl)

/-- The pieces `boost::split` returns: there is at least one, none holds a comma, and any
non-empty list of comma-free pieces that joins to the input is this list. -/
lemma splitComma_pieces (input : String) :
    splitComma input ≠ [] ∧
    (∀ piece ∈ splitComma input, ',' ∉ piece.data) ∧
    (∀ pieces : List String, pieces ≠ [] → (∀ piece ∈ pieces, ',' ∉ piece.data) →
      [','].intercalate (pieces.map String.data) = input.data →
      pieces = splitComma input) := by
  refine ⟨?_, ?_, ?_⟩
  · unfold splitComma
    intro h
    exact List.splitOnP_ne_nil _ _ (List.map_eq_nil_iff.mp h)
  · intro piece hp hmem
    unfold splitComma at hp
    obtain ⟨l, hl, rfl⟩ := List.mem_map.mp hp
    have := splitOnP_no_separator (fun c => c == ',') input.data l hl ',' hmem
    simp at this
  · intro pieces hne hfree hjoin
    unfold splitComma
    rw [← hjoin, List.splitOn_intercalate _ ',' _ (by simpa using hne)]
    · rw [List.map_map]
      have : (String.mk ∘ String.data) = id := by
        funext x
        rfl
      rw [this, List.map_id]
    · intro l hl
      obtain ⟨piece, hpiece, rfl⟩ := List.mem_map.mp hl
      exact hfree piece hpiece

/-- The status a handler returns after calling the client: `OK`, or the client's failure
with the handler's message in front. -/
lemma callClient_status (client : ClientCall → Status) (call : ClientCall) (msg : String) :
    (callClient client call msg).status =
      if (client call).ok then Status.OK else CloneAndPrepend (client call) msg := by
  unfold callClient
  by_cases h : (client call).ok = true
  · simp only [h, if_true]
  · simp only [h, Bool.false_eq_true, if_false]

/-- The flag loop of `list_snapshots` on a list made only of the three flags: each flag
present switches its variable, whatever the order and the repetitions. -/
lemma list_snapshots_flags_of_flags (ToUpperCase : String → String) (args : List String) :
    ∀ (show_details show_restored show_deleted : Bool),
      (∀ a ∈ args, ToUpperCase a = "SHOW_DETAILS" ∨ ToUpperCase a = "NOT_SHOW_RESTORED" ∨
        ToUpperCase a = "SHOW_DELETED") →
      list_snapshots_flags ToUpperCase args (show_details, show_restored, show_deleted) =
        some (show_details || args.any (fun a => ToUpperCase a = "SHOW_DETAILS"),
              show_restored && !args.any (fun a => ToUpperCase a = "NOT_SHOW_RESTORED"),
              show_deleted || args.any (fun a => ToUpperCase a = "SHOW_DELETED")) := by
  induction args with
  | nil => intro d r x _; simp [list_snapshots_flags]
  | cons a rest ih =>
      intro d r x hall
      have hrest : ∀ b ∈ rest, ToUpperCase b = "SHOW_DETAILS" ∨
          ToUpperCase b = "NOT_SHOW_RESTORED" ∨ ToUpperCase b = "SHOW_DELETED" :=
        fun b hb => hall b (List.mem_cons_of_mem _ hb)
      have h1 : ("SHOW_DETAILS" : String) ≠ "NOT_SHOW_RESTORED" := by decide
      have h2 : ("SHOW_DETAILS" : String) ≠ "SHOW_DELETED" := by decide
      have h3 : ("NOT_SHOW_RESTORED" : String) ≠ "SHOW_DELETED" := by decide
      rcases hall a (List.mem_cons_self _ _) with ha | ha | ha
      · simp only [list_snapshots_flags, ha, if_true, ih _ _ _ hrest, List.any_cons]
        simp [h1, h2]
      · simp only [list_snapshots_flags, ha, h1.symm, if_false, if_true, ih _ _ _ hrest,
          List.any_cons]
        simp [h1.symm, h3, Bool.and_assoc]
      · simp only [list_snapshots_flags, ha, h2.symm, h3.symm, if_false, if_true,
          ih _ _ _ hrest, List.any_cons]
        simp [h2.symm, h3.symm]

/-- Up to two documented flags are accepted by `list_snapshots`, with the variables set as
documented. -/
lemma list_snapshots_up_to_two_flags (ToUpperCase : String → String)
    (client : ClientCall → Status) (args : List String) (hlen : args.length ≤ 2)
    (hall : ∀ a ∈ args, ToUpperCase a = "SHOW_DETAILS" ∨ ToUpperCase a = "NOT_SHOW_RESTORED" ∨
      ToUpperCase a = "SHOW_DELETED") :
    list_snapshots ToUpperCase client args =
      callClient client
        (ClientCall.ListSnapshots
          (args.any (fun a => ToUpperCase a = "SHOW_DETAILS"))
          (!args.any (fun a => ToUpperCase a = "NOT_SHOW_RESTORED"))
          (args.any (fun a => ToUpperCase a = "SHOW_DELETED")))
        "Unable to list snapshots" := by
  unfold list_snapshots
  have h : ¬ args.length > 2 := by omega
  simp only [h, if_false, list_snapshots_flags_of_flags ToUpperCase args false true false hall,
    Bool.false_or, Bool.true_and]

/-- C14 fails on the code: the three documented flags together are rejected.  Whatever
`ToUpperCase` and the client do, `list_snapshots SHOW_DETAILS NOT_SHOW_RESTORED SHOW_DELETED`
returns the invalid-arguments status and never calls `ListSnapshots`, because of the test
`args.size() > 2`. -/
theorem list_snapshots_three_flags_rejected (ToUpperCase : String → String)
    (client : ClientCall → Status) :
    list_snapshots ToUpperCase client ["SHOW_DETAILS", "NOT_SHOW_RESTORED", "SHOW_DELETED"] =
      ⟨kInvalidArguments, []⟩ := by
  rfl

/-- C15: with exactly three arguments whose second is `set_master_addresses`, `add_table` or
`remove_table`, `alter_universe_replication` calls the client exactly once, with the
comma-separated pieces of the third argument in the corresponding list and the two other
lists empty, and returns the client's status (`OK`, or the failure with the handler's
message in front); for every other argument count or second argument it returns the
invalid-arguments status without calling the client.  The comma-separated pieces are the
one non-empty list of comma-free strings that, joined by commas, give the argument. -/
theorem alter_universe_replication_arguments (client : ClientCall → Status)
    (args : List String) :
    (∀ uuid list : String,
      (args = [uuid, "set_master_addresses", list] →
        alter_universe_replication client args =
          callClient client
            (ClientCall.AlterUniverseReplication uuid (splitComma list) [] [])
            ("Unable to alter replication for universe " ++ uuid)) ∧
      (args = [uuid, "add_table", list] →
        alter_universe_replication client args =
          callClient client
            (ClientCall.AlterUniverseReplication uuid [] (splitComma list) [])
            ("Unable to alter replication for universe " ++ uuid)) ∧
      (args = [uuid, "remove_table", list] →
        alter_universe_replication client args =
          callClient client
            (ClientCall.AlterUniverseReplication uuid [] [] (splitComma list))
            ("Unable to alter replication for universe " ++ uuid)) ∧
      [','].intercalate ((splitComma list).map String.data) = list.data) ∧
    (¬ (args.length = 3 ∧
        (args.getD 1 "" = "set_master_addresses" ∨ args.getD 1 "" = "add_table" ∨
          args.getD 1 "" = "remove_table")) →
      alter_universe_replication client args = ⟨kInvalidArguments, []⟩) ∧
    (∀ uuid list : String, ∃ pieces : List String,
      pieces ≠ [] ∧ (∀ piece ∈ pieces, ',' ∉ piece.data) ∧
      [','].intercalate (pieces.map String.data) = list.data ∧
      (∀ other : List String, other ≠ [] → (∀ piece ∈ other, ',' ∉ piece.data) →
        [','].intercalate (other.map String.data) = list.data → other = pieces) ∧
      (args = [uuid, "set_master_addresses", list] →
        (alter_universe_replication client args).calls =
          [ClientCall.AlterUniverseReplication uuid pieces [] []] ∧
        (alter_universe_replication client args).status =
          if (client (ClientCall.AlterUniverseReplication uuid pieces [] [])).ok
          then Status.OK
          else CloneAndPrepend (client (ClientCall.AlterUniverseReplication uuid pieces [] []))
            ("Unable to alter replication for universe " ++ uuid)) ∧
      (args = [uuid, "add_table", list] →
        (alter_universe_replication client args).calls =
          [ClientCall.AlterUniverseReplication uuid [] pieces []] ∧
        (alter_universe_replication client args).status =
          if (client (ClientCall.AlterUniverseReplication uuid [] pieces [])).ok
          then Status.OK
          else CloneAndPrepend (client (ClientCall.AlterUniverseReplication uuid [] pieces []))
            ("Unable to alter replication for universe " ++ uuid)) ∧
      (args = [uuid, "remove_table", list] →
        (alter_universe_replication client args).calls =
          [ClientCall.AlterUniverseReplication uuid [] [] pieces] ∧
        (alter_universe_replication client args).status =
          if (client (ClientCall.AlterUniverseReplication uuid [] [] pieces)).ok
          then Status.OK
          else CloneAndPrepend (client (ClientCall.AlterUniverseReplication uuid [] [] pieces))
            ("Unable to alter replication for universe " ++ uuid))) := by
  have hsma : ∀ uuid list : String,
      alter_universe_replication client [uuid, "set_master_addresses", list] =
        callClient client
          (ClientCall.AlterUniverseReplication uuid (splitComma list) [] [])
          ("Unable to alter replication for universe " ++ uuid) := by
    intro uuid list
    simp [alter_universe_replication]
  have hadd : ∀ uuid list : String,
      alter_universe_replication client [uuid, "add_table", list] =
        callClient client
          (ClientCall.AlterUniverseReplication uuid [] (splitComma list) [])
          ("Unable to alter replication for universe " ++ uuid) := by
    intro uuid list
    have h1 : ("add_table" : String) ≠ "set_master_addresses" := by decide
    simp [alter_universe_replication, h1]
  have hrem : ∀ uuid list : String,
      alter_universe_replication client [uuid, "remove_table", list] =
        callClient client
          (ClientCall.AlterUniverseReplication uuid [] [] (splitComma list))
          ("Unable to alter replication for universe " ++ uuid) := by
    intro uuid list
    have h1 : ("remove_table" : String) ≠ "set_master_addresses" := by decide
    have h2 : ("remove_table" : String) ≠ "add_table" := by decide
    simp [alter_universe_replication, h1, h2]
  refine ⟨?_, ?_, ?_⟩
  · intro uuid list
    refine ⟨?_, ?_, ?_, splitComma_intercalate list⟩
    · intro h
      subst h
      exact hsma uuid list
    · intro h
      subst h
      exact hadd uuid list
    · intro h
      subst h
      exact hrem uuid list
  · intro h
    unfold alter_universe_replication
    by_cases hlen : args.length = 3
    · have hk : ¬ (args.getD 1 "" = "set_master_addresses" ∨ args.getD 1 "" = "add_table" ∨
          args.getD 1 "" = "remove_table") := fun hc => h ⟨hlen, hc⟩
      have h1 : ¬ args.getD 1 "" = "set_master_addresses" := fun hc => hk (Or.inl hc)
      have h2 : ¬ args.getD 1 "" = "add_table" := fun hc => hk (Or.inr (Or.inl hc))
      have h3 : ¬ args.getD 1 "" = "remove_table" := fun hc => hk (Or.inr (Or.inr hc))
      simp only [hlen, bne_self_eq_false, Bool.false_eq_true, if_false, h1, h2, h3]
    · have hb : (args.length != 3) = true := by simpa using hlen
      simp only [hb, if_true]
  · intro uuid list
    obtain ⟨hne, hfree, huniq⟩ := splitComma_pieces list
    refine ⟨splitComma list, hne, hfree, splitComma_intercalate list, huniq, ?_, ?_, ?_⟩
    · intro h
      subst h
      rw [hsma]
      exact ⟨callClient_calls _ _ _, callClient_status _ _ _⟩
    · intro h
      subst h
      rw [hadd]
      exact ⟨callClient_calls _ _ _, callClient_status _ _ _⟩
    · intro h
      subst h
      rw [hrem]
      exact ⟨callClient_calls _ _ _, callClient_status _ _ _⟩

/-- Witness for `alter_universe_replication_arguments`: adding two tables. -/
theorem alter_universe_replication_arguments_witness :
    alter_universe_replication (fun _ => Status.OK) ["u1", "add_table", "t1,t2"] =
      callClient (fun _ => Status.OK)
        (ClientCall.AlterUniverseReplication "u1" [] (splitComma "t1,t2") [])
        ("Unable to alter replication for universe " ++ "u1") ∧
    (alter_universe_replication (fun _ => Status.OK) ["u1", "add_table", "t1,t2"]).calls =
      [ClientCall.AlterUniverseReplication "u1" [] ["t1", "t2"] []] :=
  ⟨((alter_universe_replication_arguments (fun _ => Status.OK) ["u1", "add_table", "t1,t2"]).1
    "u1" "t1,t2").2.1 rfl, by decide⟩

/-- C16, as stated, fails: the argument `2` is not `1`, yet the client is called with
`is_enabled = true` (here `CheckedStoi` reads `2` as the integer 2). -/
theorem set_universe_replication_enabled_counterexample :
    (set_universe_replication_enabled
      (fun s => if s = "2" then Result.value 2 else Result.error kInvalidArguments)
      (fun _ => Status.OK) ["u1", "2"]).calls =
        [ClientCall.SetUniverseReplicationEnabled "u1" true] ∧
    ("2" : String) ≠ "1" := by
  decide

/-- C16 (amended): given at least two arguments, `set_universe_replication_enabled` calls
`SetUniverseReplicationEnabled` exactly once when `CheckedStoi` reads the second argument
as an integer `v`, with `is_enabled = true` exactly when `v` is not zero (so for 1) and
`is_enabled = false` exactly when `v` is 0; when `CheckedStoi` fails, its status is
returned and the client is not called. -/
theorem set_universe_replication_enabled_nonzero (CheckedStoi : String → Result Int)
    (client : ClientCall → Status) (args : List String) (hlen : 2 ≤ args.length) :
    (∀ v, CheckedStoi (args.getD 1 "") = Result.value v →
      (set_universe_replication_enabled CheckedStoi client args).calls =
        [ClientCall.SetUniverseReplicationEnabled (args.getD 0 "") (decide (v ≠ 0))] ∧
      (decide (v ≠ 0) = true ↔ v ≠ 0) ∧ (decide (v ≠ 0) = false ↔ v = 0)) ∧
    (∀ s, CheckedStoi (args.getD 1 "") = Result.error s →
      set_universe_replication_enabled CheckedStoi client args = ⟨s, []⟩) := by
  have h : ¬ args.length < 2 := by omega
  constructor
  · intro v hv
    refine ⟨?_, by simp, by simp⟩
    unfold set_universe_replication_enabled
    simp only [h, if_false, hv]
    rw [callClient_calls]
    have hb : (v != 0) = decide (v ≠ 0) := by
      by_cases hz : v = 0
      · subst hz
        rfl
      · simp [hz]
    rw [hb]
  · intro s hs
    unfold set_universe_replication_enabled
    simp only [h, if_false, hs]

/-- Witness for `set_universe_replication_enabled_nonzero`: the argument `0` disables. -/
theorem set_universe_replication_enabled_nonzero_witness :
    (set_universe_replication_enabled (fun _ => Result.value 0) (fun _ => Status.OK)
      ["u1", "0"]).calls = [ClientCall.SetUniverseReplicationEnabled "u1" false] :=
  ((set_universe_replication_enabled_nonzero (fun _ => Result.value 0) (fun _ => Status.OK)
    ["u1", "0"] (by decide)).1 0 rfl).1

end tools

namespace master
namespace AsyncTabletSnapshotOp

open tserver

/-- C18, as stated, fails: a task whose state is already `kComplete` when a response with a
retryable error arrives passes the `state() != kComplete` test, so the error is surfaced:
`HandleRestoreTabletSnapshotResponse` is invoked with the error flag set. -/
theorem handleResponse_transient_error_counterexample :
    RetryAllowed SnapshotOperation.RESTORE_ON_TABLET (TabletServerErrorCode.other 1)
      ⟨StatusCode.kTimedOut, "timed out", TransactionErrorCode.kNone⟩ = true ∧
    HandleResponse
      (fun s => if s = MonitoredTaskState.kRunning then MonitoredTaskState.kComplete else s)
      (fun _ => false)
      ⟨MonitoredTaskState.kComplete, SnapshotOperation.RESTORE_ON_TABLET, "tablet-1", "snap-1"⟩
      ⟨true, TabletServerErrorCode.other 1, ⟨StatusCode.kTimedOut, "timed out",
        TransactionErrorCode.kNone⟩⟩ =
    some (⟨MonitoredTaskState.kComplete, SnapshotOperation.RESTORE_ON_TABLET, "tablet-1",
      "snap-1"⟩, [CatalogManagerCall.HandleRestoreTabletSnapshotResponse "tablet-1" true]) := by
  decide

/-- C18 (amended): in `HandleResponse`, a response error for which `RetryAllowed` is true
never changes the task state, and unless the task was already complete before the response
it ends with the task as it was and no `CatalogManager` handler invoked; for every
response, a `CatalogManager` handler is invoked only if the task state is `kComplete`
after the response was processed. -/
theorem handleResponse_transient_error
    (TransitionToCompleteState : MonitoredTaskState → MonitoredTaskState)
    (TryFullyDecodeTxnSnapshotId : String → Bool)
    (task : AsyncTabletSnapshotOpTask) (resp_ : TabletSnapshotOpResponse) :
    (resp_.has_error = true →
      RetryAllowed task.operation_ resp_.error_code resp_.error_status = true →
      (∀ task1 calls,
        HandleResponse TransitionToCompleteState TryFullyDecodeTxnSnapshotId task resp_ =
          some (task1, calls) → task1 = task) ∧
      (task.state_ ≠ MonitoredTaskState.kComplete →
        HandleResponse TransitionToCompleteState TryFullyDecodeTxnSnapshotId task resp_ =
          some (task, []))) ∧
    (∀ task1 calls,
      HandleResponse TransitionToCompleteState TryFullyDecodeTxnSnapshotId task resp_ =
        some (task1, calls) →
      calls ≠ [] → task1.state_ = MonitoredTaskState.kComplete) := by
  constructor
  · intro herr hretry
    have hstate : (if resp_.has_error = true then
        if (!RetryAllowed task.operation_ resp_.error_code resp_.error_status) = true then
          { task with state_ := TransitionToCompleteState task.state_ }
        else task
      else { task with state_ := TransitionToCompleteState task.state_ }) = task := by
      simp only [herr, if_true, hretry, Bool.not_true, Bool.false_eq_true, if_false]
    constructor
    · intro task1 calls h
      unfold HandleResponse at h
      simp only [hstate] at h
      by_cases hc : task.state_ ≠ MonitoredTaskState.kComplete
      · rw [if_pos hc] at h
        simp only [Option.some.injEq, Prod.mk.injEq] at h
        exact h.1.symm
      · rw [if_neg hc] at h
        cases hop : task.operation_ <;> rw [hop] at h <;>
          simp only [Option.some.injEq, Prod.mk.injEq, reduceCtorEq] at h
        · exact h.1.symm
        · exact h.1.symm
        · by_cases hd : (!TryFullyDecodeTxnSnapshotId task.snapshot_id_) = true
          · rw [if_pos hd] at h
            simp only [Option.some.injEq, Prod.mk.injEq] at h
            exact h.1.symm
          · rw [if_neg hd] at h
            simp only [Option.some.injEq, Prod.mk.injEq] at h
            exact h.1.symm
        · exact h.1.symm
    · intro hc
      unfold HandleResponse
      simp only [hstate]
      rw [if_pos hc]
  · intro task1 calls h hne
    unfold HandleResponse at h
    generalize (if resp_.has_error = true then
        if (!RetryAllowed task.operation_ resp_.error_code resp_.error_status) = true then
          { task with state_ := TransitionToCompleteState task.state_ }
        else task
      else { task with state_ := TransitionToCompleteState task.state_ }) = t at h
    by_cases hc : t.state_ ≠ MonitoredTaskState.kComplete
    · rw [if_pos hc] at h
      simp only [Option.some.injEq, Prod.mk.injEq] at h
      exact absurd h.2.symm hne
    · have hcomp : t.state_ = MonitoredTaskState.kComplete := not_not.mp hc
      rw [if_neg hc] at h
      cases hop : t.operation_ <;> rw [hop] at h <;>
        simp only [Option.some.injEq, Prod.mk.injEq, reduceCtorEq] at h
      · rw [← h.1]; exact hcomp
      · rw [← h.1]; exact hcomp
      · by_cases hd : (!TryFullyDecodeTxnSnapshotId t.snapshot_id_) = true
        · rw [if_pos hd] at h
          simp only [Option.some.injEq, Prod.mk.injEq] at h
          rw [← h.1]; exact hcomp
        · rw [if_neg hd] at h
          simp only [Option.some.injEq, Prod.mk.injEq] at h
          rw [← h.1]; exact hcomp
      · rw [← h.1]; exact hcomp

/-- Witness for `handleResponse_transient_error`: a running create task receiving a
retryable error stays running and reports nothing. -/
theorem handleResponse_transient_error_witness :
    HandleResponse
      (fun s => if s = MonitoredTaskState.kRunning then MonitoredTaskState.kComplete else s)
      (fun _ => false)
      ⟨MonitoredTaskState.kRunning, SnapshotOperation.CREATE_ON_TABLET, "tablet-1", "snap-1"⟩
      ⟨true, TabletServerErrorCode.other 1, ⟨StatusCode.kTimedOut, "timed out",
        TransactionErrorCode.kNone⟩⟩ =
    some (⟨MonitoredTaskState.kRunning, SnapshotOperation.CREATE_ON_TABLET, "tablet-1",
      "snap-1"⟩, []) :=
  ((handleResponse_transient_error
    (fun s => if s = MonitoredTaskState.kRunning then MonitoredTaskState.kComplete else s)
    (fun _ => false)
    ⟨MonitoredTaskState.kRunning, SnapshotOperation.CREATE_ON_TABLET, "tablet-1", "snap-1"⟩
    ⟨true, TabletServerErrorCode.other 1, ⟨StatusCode.kTimedOut, "timed out",
      TransactionErrorCode.kNone⟩⟩).1 rfl rfl).2 (by decide)

end AsyncTabletSnapshotOp
end master

end yb
